import Mathlib

/-! # venice: polygon store, spatial index and point-in-polygon query

A shallow embedding of the geometric core of `src/main.c`
(`readPolygonFileTree`, `createNode`, `insidePolygonTree`) and of the way the
three callers (`mask2d`, `flagCat`, `randomCat`) choose the reference point.

Modelling conventions

* A C `double` is a rational number (`ℚ`).  In `insidePolygonTree`,
  `insidePolygon`, `createNode` and the store construction every operation is
  exact: rounding, overflow and underflow are not modelled there.  The crossing
  solve is given a second time with the rounding of each operation
  (`edgeDFl`, `edgeSFl`, `edgeTFl`, `insidePolygonTreeFl`, with `round64` for
  binary64 arithmetic); the statement about the computed parameters `s` and `t`
  is made on that one.
  The only place where a non-finite `double` can arise in the modelled code is
  the quotient by the denominator `D` of the crossing solve; it is modelled by
  `fdiv`, which returns `none` for a zero denominator.
  `Quot754` and `ieeeDiv` spell out the IEEE-754 quotient and comparison that
  `fdiv` and `inOpen` stand for.
* A `double[2]` is a pair `ℚ × ℚ`, read with `at2` and written with `set2`.
* `EPS` (computed once in `main` by `determineMachineEpsilon`) and `NVERTICES`
  (a constant of the absent header `main.h`) are parameters; the macros `MIN`,
  `MAX` and `GSL_IS_ODD` are the minimum, the maximum and the parity test.
* The input of `readPolygonFileTree` is the list of the `polygon` lines of the
  file, each a `Line`: the values (`atof`) of the fields that `getStrings`
  finds on it, or the mark that `getStrings` returns at once.  The buffer
  `item` and the count `N` are carried from one line to the next, as in the
  code, which never resets them.  The two ways the function calls
  `exit(EXIT_FAILURE)` while reading are the values of `StoreError`.
* The recursion of `createNode` is bounded by a fuel argument: `none` means the
  recursion did not finish within the fuel.
* The book-keeping fields of a `Node` that no query reads (`root`, `id`,
  `Nnodes`, `NpolysAll`) are left out; `polysAll`, the address of the whole
  store kept in every node, is passed alongside the tree.
-/

namespace Venice

/-! ## Data model -/

/-- Read component `d` of a `double[2]` (`v[0]` or `v[1]`). -/
def at2 (v : ℚ × ℚ) (d : Nat) : ℚ := if d = 0 then v.1 else v.2

/-- Write component `d` of a `double[2]`. -/
def set2 (v : ℚ × ℚ) (d : Nat) (a : ℚ) : ℚ × ℚ := if d = 0 then (a, v.2) else (v.1, a)

/-- The `Polygon` record: vertex count `N`, `id`, the coordinate arrays `x`
and `y` (their first `N` entries) and the cached bounding box `xmin`, `xmax`. -/
structure Polygon where
  N : Nat
  id : Nat
  x : List ℚ
  y : List ℚ
  xmin : ℚ × ℚ
  xmax : ℚ × ℚ
  deriving DecidableEq

/-- The polygon read at an index outside the store (never reached by a tree
built by `createNode`, whose ids are positions of the store). -/
def Polygon.none : Polygon := ⟨0, 0, [], [], (0, 0), (0, 0)⟩

/-- The `Node` record: a `LEAF` holds its member ids `poly_id`; a `NODE` also
holds `SplitDim`, `SplitValue` and the children `Left` and `Right`.
`Npolys` is the length of `poly_id`. -/
inductive Node where
  | LEAF (poly_id : List Nat) : Node
  | NODE (poly_id : List Nat) (SplitDim : Nat) (SplitValue : ℚ) (Left Right : Node) : Node
  deriving DecidableEq

/-- The member list `poly_id` of a node. -/
def Node.poly_id : Node → List Nat
  | .LEAF ids => ids
  | .NODE ids _ _ _ _ => ids

/-- The ways `readPolygonFileTree` exits with `EXIT_FAILURE` while reading the
polygons: no polygon found, or polygon `pos` with `count` vertices, more than
`NVERTICES`. -/
inductive StoreError where
  | EmptyInput : StoreError
  | TooManyVertices (pos count : Nat) : StoreError
  deriving DecidableEq

/-! ## Query: `insidePolygonTree` -/

/-- Quotient of two doubles as used for `s` and `t`: `none` stands for the
non-finite value (an infinity or a NaN) that a zero denominator produces. -/
def fdiv (a b : ℚ) : Option ℚ := if b = 0 then none else some (a / b)

/-- The test `0.0 < s && s < 1.0 + EPS` on a quotient; it is false for every
non-finite value. -/
def inOpen (EPS : ℚ) : Option ℚ → Bool
  | some s => decide (0 < s) && decide (s < 1 + EPS)
  | none => false

/-- Index of the end vertex of edge `j`: `j+1`, and `0` for the last edge. -/
def nextVertex (N j : Nat) : Nat := if j < N - 1 then j + 1 else 0

/-- Denominator `D` of the crossing solve for edge `j` of polygon `p`, every
operation being exact (`edgeDFl` has the rounding). -/
def edgeD (p : Polygon) (x0 x : ℚ × ℚ) (j : Nat) : ℚ :=
  (p.x.getD (nextVertex p.N j) 0 - p.x.getD j 0) * (x.2 - x0.2)
    - (p.y.getD (nextVertex p.N j) 0 - p.y.getD j 0) * (x.1 - x0.1)

/-- Parameter `s` of the crossing solve for edge `j`, every operation being
exact: the number that the `double` computed by the code approximates
(`edgeSFl` has the rounding). -/
def edgeS (p : Polygon) (x0 x : ℚ × ℚ) (j : Nat) : Option ℚ :=
  fdiv ((x.1 - x0.1) * (p.y.getD j 0 - x.2) - (x.2 - x0.2) * (p.x.getD j 0 - x.1))
    (edgeD p x0 x j)

/-- Parameter `t` of the crossing solve for edge `j`, every operation being
exact: the number that the `double` computed by the code approximates
(`edgeTFl` has the rounding). -/
def edgeT (p : Polygon) (x0 x : ℚ × ℚ) (j : Nat) : Option ℚ :=
  fdiv ((p.x.getD j 0 - x.1) * (p.y.getD (nextVertex p.N j) 0 - p.y.getD j 0)
      - (p.y.getD j 0 - x.2) * (p.x.getD (nextVertex p.N j) 0 - p.x.getD j 0))
    (edgeD p x0 x j)

/-- The condition under which the loop over the edges does `Ncross++`. -/
def crossed (EPS : ℚ) (p : Polygon) (x0 x : ℚ × ℚ) (j : Nat) : Bool :=
  inOpen EPS (edgeS p x0 x j) && inOpen EPS (edgeT p x0 x j)

/-- Value of `Ncross` after the loop `for(j=0;j<polys[i].N;j++)`. -/
def Ncross (EPS : ℚ) (p : Polygon) (x0 x : ℚ × ℚ) : Nat :=
  ((List.range p.N).filter (crossed EPS p x0 x)).length

/-- The bounding-box test of the leaf loop: `x` strictly inside the box. -/
def inBox (p : Polygon) (x : ℚ × ℚ) : Bool :=
  decide (p.xmin.1 < x.1) && decide (x.1 < p.xmax.1)
    && decide (p.xmin.2 < x.2) && decide (x.2 < p.xmax.2)

/-- Both tests of the leaf loop: inside the box and `GSL_IS_ODD(Ncross)`. -/
def hit (EPS : ℚ) (p : Polygon) (x0 x : ℚ × ℚ) : Bool :=
  inBox p x && decide (Ncross EPS p x0 x % 2 = 1)

/-- The loop `for(k=0;k<polyTree->Npolys;k++)` of a leaf over the member ids:
the pair is the returned value and `*poly_id`. -/
def leafScan (EPS : ℚ) (polysAll : List Polygon) (x0 x : ℚ × ℚ) : List Nat → Int × Int
  | [] => (0, -1)
  | i :: rest =>
    if hit EPS (polysAll.getD i Polygon.none) x0 x then (1, (i : Int))
    else leafScan EPS polysAll x0 x rest

/-- The function `insidePolygonTree`: the pair is the returned value and
`*poly_id`. -/
def insidePolygonTree (EPS : ℚ) (polysAll : List Polygon) :
    Node → ℚ × ℚ → ℚ × ℚ → Int × Int
  | .LEAF ids, x0, x =>
    if ids.length = 0 then (0, -1) else leafScan EPS polysAll x0 x ids
  | .NODE ids SplitDim SplitValue Left Right, x0, x =>
    if ids.length = 0 then (0, -1)
    else if at2 x SplitDim < SplitValue then insidePolygonTree EPS polysAll Left x0 x
    else insidePolygonTree EPS polysAll Right x0 x

/-! ## The linear scan `insidePolygon` -/

/-- Denominator `D` computed by `insidePolygon` for edge `j` of polygon `p`. -/
def scanD (p : Polygon) (x0 y0 x y : ℚ) (j : Nat) : ℚ :=
  (p.x.getD (nextVertex p.N j) 0 - p.x.getD j 0) * (y - y0)
    - (p.y.getD (nextVertex p.N j) 0 - p.y.getD j 0) * (x - x0)

/-- Parameter `s` computed by `insidePolygon` for edge `j`. -/
def scanS (p : Polygon) (x0 y0 x y : ℚ) (j : Nat) : Option ℚ :=
  fdiv ((x - x0) * (p.y.getD j 0 - y) - (y - y0) * (p.x.getD j 0 - x)) (scanD p x0 y0 x y j)

/-- Parameter `t` computed by `insidePolygon` for edge `j`. -/
def scanT (p : Polygon) (x0 y0 x y : ℚ) (j : Nat) : Option ℚ :=
  fdiv ((p.x.getD j 0 - x) * (p.y.getD (nextVertex p.N j) 0 - p.y.getD j 0)
      - (p.y.getD j 0 - y) * (p.x.getD (nextVertex p.N j) 0 - p.x.getD j 0))
    (scanD p x0 y0 x y j)

/-- Value of `Ncross` after the loop over the edges in `insidePolygon`. -/
def scanNcross (EPS : ℚ) (p : Polygon) (x0 y0 x y : ℚ) : Nat :=
  ((List.range p.N).filter
    (fun j => inOpen EPS (scanS p x0 y0 x y j) && inOpen EPS (scanT p x0 y0 x y j))).length

/-- The loop `for(i=0;i<Npolys;i++)` of `insidePolygon` from index `i` on, with
`n` turns left: the pair is the returned value and `*poly_id`. -/
def insidePolygonFrom (EPS : ℚ) (polys : List Polygon) (x0 y0 x y : ℚ) :
    Nat → Nat → Int × Int
  | _, 0 => (0, -1)
  | i, n + 1 =>
    if decide ((polys.getD i Polygon.none).xmin.1 < x)
        && decide (x < (polys.getD i Polygon.none).xmax.1)
        && decide ((polys.getD i Polygon.none).xmin.2 < y)
        && decide (y < (polys.getD i Polygon.none).xmax.2)
        && decide (scanNcross EPS (polys.getD i Polygon.none) x0 y0 x y % 2 = 1)
    then (1, (i : Int))
    else insidePolygonFrom EPS polys x0 y0 x y (i + 1) n

/-- The obsolete function `insidePolygon`: the exhaustive scan of the first
`Npolys` polygons of `polys`. -/
def insidePolygon (EPS : ℚ) (polys : List Polygon) (Npolys : Nat) (x0 y0 x y : ℚ) :
    Int × Int :=
  insidePolygonFrom EPS polys x0 y0 x y 0 Npolys

/-! ## Store construction: the reading part of `readPolygonFileTree` -/

/-- One `polygon(...)` line of the file, as `getStrings` reads the text between
its parentheses: `skipped` when that text is empty or starts with `#`, so that
`getStrings` returns at once; otherwise `fields item`, `item` being the values
(`atof`) of the fields that `getStrings` finds, in order (it finds none on a
line such as `polygon(,)`, and then sets `N` to `0`). -/
inductive Line where
  | skipped : Line
  | fields (item : List ℚ) : Line
  deriving DecidableEq

/-- The number of fields found on a line. -/
def Line.length : Line → Nat
  | .skipped => 0
  | .fields item => item.length

/-- The effect of one call `getStrings(line,item,",",&N)` on the buffer `item`
and on the count `N` (the pair `st`): on a skipped line the function returns
before it writes anything, so both keep what the previous line left; otherwise
the fields overwrite the first entries of the buffer, the entries after them
keep their previous content, and `N` becomes the number of fields. -/
def getStrings (line : Line) (st : List ℚ × Nat) : List ℚ × Nat :=
  match line with
  | .skipped => st
  | .fields item => (item ++ st.1.drop item.length, item.length)

/-- The polygon number `i` stored by one turn of the reading loop when, after
`getStrings`, the buffer holds `item` and the count is `N`: it has `N/2`
vertices taken from the buffer, and its box starts at the first two entries of
the buffer (an entry that no line has written reads as `0`). -/
def readPolygon (i N : Nat) (item : List ℚ) : Polygon :=
  let xs := (List.range (N / 2)).map (fun j => item.getD (2 * j) 0)
  let ys := (List.range (N / 2)).map (fun j => item.getD (2 * j + 1) 0)
  { N := N / 2
    id := i
    x := xs
    y := ys
    xmin := (xs.foldl min (item.getD 0 0), ys.foldl min (item.getD 1 0))
    xmax := (xs.foldl max (item.getD 0 0), ys.foldl max (item.getD 1 0)) }

/-- The reading loop from polygon number `i` on, `st` being the buffer `item`
and the count `N` left by the previous line: it stops at the first polygon with
more than `NVERTICES` vertices. -/
def readLines (NVERTICES : Nat) :
    Nat → List ℚ × Nat → List Line → Except StoreError (List Polygon)
  | _, _, [] => .ok []
  | i, st, line :: rest =>
    if (getStrings line st).2 / 2 > NVERTICES then
      .error (.TooManyVertices i ((getStrings line st).2 / 2))
    else
      match readLines NVERTICES (i + 1) (getStrings line st) rest with
      | .error e => .error e
      | .ok ps => .ok (readPolygon i (getStrings line st).2 (getStrings line st).1 :: ps)

/-- The polygon store `polysAll` read from the `polygon` lines of the file.
Before the first line `item` and `N` are not initialised: they are taken as an
empty buffer and `0`. -/
def readPolygons (NVERTICES : Nat) (lines : List Line) :
    Except StoreError (List Polygon) :=
  match readLines NVERTICES 0 ([], 0) lines with
  | .error e => .error e
  | .ok ps => if ps.length = 0 then .error .EmptyInput else .ok ps

/-! ## Index construction: `createNode` and the end of `readPolygonFileTree` -/

/-- Area of a polygon's cached bounding box. -/
def boxArea (p : Polygon) : ℚ := (p.xmax.1 - p.xmin.1) * (p.xmax.2 - p.xmin.2)

/-- One turn of the loop over the store that widens the limits `xmin`, `xmax`
with the box of polygon `q` (`MIN` and `MAX` on each component). -/
def widen (acc : (ℚ × ℚ) × (ℚ × ℚ)) (q : Polygon) : (ℚ × ℚ) × (ℚ × ℚ) :=
  ((min acc.1.1 q.xmin.1, min acc.1.2 q.xmin.2), (max acc.2.1 q.xmax.1, max acc.2.2 q.xmax.2))

/-- The overall limits `xmin`, `xmax` set by `readPolygonFileTree`: the box of
polygon `0` widened with the boxes of the others. -/
def limits : List Polygon → (ℚ × ℚ) × (ℚ × ℚ)
  | [] => ((0, 0), (0, 0))
  | p :: ps => ps.foldl widen (p.xmin, p.xmax)

/-- The threshold `minArea` computed by `readPolygonFileTree`. -/
def minAreaOf : List Polygon → ℚ
  | [] => 0
  | p :: ps => (ps.foldl (fun acc q => acc + boxArea q) (boxArea p)) / (1 * ((ps.length + 1 : Nat) : ℚ))

/-- The area of the region of a node, `(xmax[0]-xmin[0])*(xmax[1]-xmin[1])`. -/
def regionArea (xmin xmax : ℚ × ℚ) : ℚ := (xmax.1 - xmin.1) * (xmax.2 - xmin.2)

/-- The `SplitValue` of a node: the midpoint of its region along `SplitDim`. -/
def splitValue (SplitDim : Nat) (xmin xmax : ℚ × ℚ) : ℚ :=
  (at2 xmax SplitDim + at2 xmin SplitDim) / 2

/-- The split dimension handed to the children: `SplitDim++` and back to `0`
when it exceeds `1`. -/
def childDim (SplitDim : Nat) : Nat := if SplitDim + 1 > 1 then 0 else SplitDim + 1

/-- The polygons copied into `polysChild` for the left child. -/
def leftPolys (polys : List Polygon) (SplitDim : Nat) (SplitValue : ℚ) : List Polygon :=
  polys.filter (fun p => decide (at2 p.xmin SplitDim < SplitValue))

/-- The polygons copied into `polysChild` for the right child. -/
def rightPolys (polys : List Polygon) (SplitDim : Nat) (SplitValue : ℚ) : List Polygon :=
  polys.filter (fun p => decide (at2 p.xmax SplitDim > SplitValue))

/-- The function `createNode`, with the recursion depth bounded by the fuel. -/
def createNode : Nat → List Polygon → ℚ → Nat → ℚ × ℚ → ℚ × ℚ → Option Node
  | 0, _, _, _, _, _ => none
  | fuel + 1, polys, minArea, SplitDim, xmin, xmax =>
    if polys.length = 0 ∨ regionArea xmin xmax < minArea then
      some (.LEAF (polys.map (fun p => p.id)))
    else
      match createNode fuel (leftPolys polys SplitDim (splitValue SplitDim xmin xmax))
          minArea (childDim SplitDim) xmin (set2 xmax SplitDim (splitValue SplitDim xmin xmax)) with
      | none => none
      | some l =>
        match createNode fuel (rightPolys polys SplitDim (splitValue SplitDim xmin xmax))
            minArea (childDim SplitDim) (set2 xmin SplitDim (splitValue SplitDim xmin xmax)) xmax with
        | none => none
        | some r =>
          some (.NODE (polys.map (fun p => p.id)) SplitDim (splitValue SplitDim xmin xmax) l r)

/-- What `readPolygonFileTree` hands back: the tree, the store `polysAll` it
points to, and the limits written to `xmin` and `xmax`. -/
structure Built where
  tree : Node
  polysAll : List Polygon
  xmin : ℚ × ℚ
  xmax : ℚ × ℚ
  deriving DecidableEq

/-- The part of `readPolygonFileTree` after the store is read. -/
def buildTree (fuel : Nat) (polysAll : List Polygon) : Option Built :=
  match createNode fuel polysAll (minAreaOf polysAll) 0 (limits polysAll).1 (limits polysAll).2 with
  | none => none
  | some t => some ⟨t, polysAll, (limits polysAll).1, (limits polysAll).2⟩

/-- The function `readPolygonFileTree` on the `polygon` lines of the file:
an error exit, or the result of the build (`none` when the recursion of
`createNode` did not finish within the fuel). -/
def readPolygonFileTree (NVERTICES fuel : Nat) (lines : List Line) :
    Except StoreError (Option Built) :=
  match readPolygons NVERTICES lines with
  | .error e => .error e
  | .ok polysAll => .ok (buildTree fuel polysAll)

/-! ## The callers: limits and reference point -/

/-- The fields of `Config` that set the limits: `min`, `max` and the flags
`minDefinied`, `maxDefinied` set by `-xmin`, `-ymin`, `-xmax`, `-ymax`. -/
structure Config where
  minDefinied : Bool × Bool
  maxDefinied : Bool × Bool
  min : ℚ × ℚ
  max : ℚ × ℚ

/-- The configuration left by `readParameters` when no limit option is given. -/
def Config.default : Config := ⟨(false, false), (false, false), (0, 0), (0, 0)⟩

/-- The block "define limits" of a caller: a limit given by the user replaces
the one found by `readPolygonFileTree`. -/
def defineLimits (para : Config) (xmin xmax : ℚ × ℚ) : (ℚ × ℚ) × (ℚ × ℚ) :=
  ((if para.minDefinied.1 then para.min.1 else xmin.1,
    if para.minDefinied.2 then para.min.2 else xmin.2),
   (if para.maxDefinied.1 then para.max.1 else xmax.1,
    if para.maxDefinied.2 then para.max.2 else xmax.2))

/-- The reference point `x0` of `mask2d`: `xmin[0] - 1.0`, `xmin[1] - 1.0`
after the limits are defined. -/
def mask2d_x0 (para : Config) (b : Built) : ℚ × ℚ :=
  ((defineLimits para b.xmin b.xmax).1.1 - 1, (defineLimits para b.xmin b.xmax).1.2 - 1)

/-- The reference point `x0` of `flagCat`. -/
def flagCat_x0 (para : Config) (b : Built) : ℚ × ℚ :=
  ((defineLimits para b.xmin b.xmax).1.1 - 1, (defineLimits para b.xmin b.xmax).1.2 - 1)

/-- The reference point `x0` of `randomCat`. -/
def randomCat_x0 (para : Config) (b : Built) : ℚ × ℚ :=
  ((defineLimits para b.xmin b.xmax).1.1 - 1, (defineLimits para b.xmin b.xmax).1.2 - 1)

/-! ## Notions used to state the properties -/

/-- All the nodes of a tree, the root first. -/
def Node.subtrees : Node → List Node
  | .LEAF ids => [.LEAF ids]
  | .NODE ids d v l r => .NODE ids d v l r :: (l.subtrees ++ r.subtrees)

/-- The member list of the node at which the descent of `insidePolygonTree`
for the query point `x` stops. -/
def reached : Node → ℚ × ℚ → List Nat
  | .LEAF ids, _ => ids
  | .NODE ids SplitDim SplitValue Left Right, x =>
    if ids.length = 0 then ids
    else if at2 x SplitDim < SplitValue then reached Left x
    else reached Right x

/-- The point `x` lies in the closed bounding box of `p`. -/
def inClosedBox (p : Polygon) (x : ℚ × ℚ) : Prop :=
  p.xmin.1 ≤ x.1 ∧ x.1 ≤ p.xmax.1 ∧ p.xmin.2 ≤ x.2 ∧ x.2 ≤ p.xmax.2

/-- The closed bounding boxes of `a` and `b` have no common point. -/
def boxesDisjoint (a b : Polygon) : Prop :=
  a.xmax.1 < b.xmin.1 ∨ b.xmax.1 < a.xmin.1 ∨ a.xmax.2 < b.xmin.2 ∨ b.xmax.2 < a.xmin.2

/-- A line `a*X + b*Y = c` has every vertex of `p` on one side (`≤ c`) and the
point `x` strictly on the other: `x` is outside the convex hull of `p`, hence
outside `p`. -/
def separatedFrom (p : Polygon) (x : ℚ × ℚ) (a b c : ℚ) : Prop :=
  (∀ j, j < p.N → a * p.x.getD j 0 + b * p.y.getD j 0 ≤ c) ∧ c < a * x.1 + b * x.2

/-- The point `x0` is strictly below and left of the bounding box of `p`. -/
def belowLeft (x0 : ℚ × ℚ) (p : Polygon) : Prop := x0.1 < p.xmin.1 ∧ x0.2 < p.xmin.2

/-- The three vertices given by the six fields of a line are collinear. -/
def collinear3 (x0 y0 x1 y1 x2 y2 : ℚ) : Prop :=
  (x1 - x0) * (y2 - y0) = (x2 - x0) * (y1 - y0)

/-! ## Concrete inputs -/

/-- The value returned by `determineMachineEpsilon` in IEEE-754 binary64
arithmetic: `100 * 2^-53`. -/
def machineEPS : ℚ := 100 / 2 ^ 53

/-- The line `polygon(0,0,4,0,4,4,0,4)`. -/
def squareLine : Line := .fields [0, 0, 4, 0, 4, 4, 0, 4]

/-- The polygon read from `squareLine`. -/
def squareP : Polygon :=
  ⟨4, 0, [0, 4, 4, 0], [0, 0, 4, 4], (0, 0), (4, 4)⟩

/-- The tree built from `squareLine`. -/
def squareTree : Node := .NODE [0] 0 2 (.LEAF [0]) (.LEAF [0])

/-- What `readPolygonFileTree` returns for `squareLine`. -/
def squareBuilt : Built := ⟨squareTree, [squareP], (0, 0), (4, 4)⟩

/-- The line `polygon(0,0,4,0,4,2)`, a triangle below the diagonal `y = x`
that touches it at its vertex `(0,0)`. -/
def grazeLine : Line := .fields [0, 0, 4, 0, 4, 2]

/-- The polygon read from `grazeLine`. -/
def grazeP : Polygon := ⟨3, 0, [0, 4, 4], [0, 0, 2], (0, 0), (4, 2)⟩

/-- What `readPolygonFileTree` returns for `grazeLine`. -/
def grazeBuilt : Built :=
  ⟨.NODE [0] 0 2 (.LEAF [0]) (.LEAF [0]), [grazeP], (0, 0), (4, 2)⟩

/-- The line `polygon(0,0,2,1,4,2)`: three collinear vertices on a slanted
line. -/
def slantLine : Line := .fields [0, 0, 2, 1, 4, 2]

/-- The polygon read from `slantLine`. -/
def slantP : Polygon := ⟨3, 0, [0, 2, 4], [0, 1, 2], (0, 0), (4, 2)⟩

/-- What `readPolygonFileTree` returns for `slantLine`. -/
def slantBuilt : Built :=
  ⟨.NODE [0] 0 2 (.LEAF [0]) (.LEAF [0]), [slantP], (0, 0), (4, 2)⟩

/-- The line `polygon(0,0,1,0,2,0)`: three vertices on a horizontal line. -/
def flatLine : Line := .fields [0, 0, 1, 0, 2, 0]

/-- The polygon read from `flatLine`. -/
def flatP : Polygon := ⟨3, 0, [0, 1, 2], [0, 0, 0], (0, 0), (2, 0)⟩

/-- What `readPolygonFileTree` returns for `flatLine`. -/
def flatBuilt : Built :=
  ⟨.NODE [0] 0 1 (.NODE [0] 1 0 (.LEAF []) (.LEAF [])) (.NODE [0] 1 0 (.LEAF []) (.LEAF [])),
    [flatP], (0, 0), (2, 0)⟩

/-- The line `polygon(0,0,0,1,0,2)`: three vertices on a vertical line. -/
def uprightLine : Line := .fields [0, 0, 0, 1, 0, 2]

/-- The option values `-xmin 2 -ymin 2`. -/
def innerLimits : Config := ⟨(true, true), (false, false), (2, 2), (0, 0)⟩

/-- The line `polygon(10,10,14,10,14,14,10,14)`, a square away from the first. -/
def farLine : Line := .fields [10, 10, 14, 10, 14, 14, 10, 14]

/-- The polygon read from `farLine` as second polygon. -/
def farP : Polygon := ⟨4, 1, [10, 14, 14, 10], [10, 10, 14, 14], (10, 10), (14, 14)⟩

/-- What `readPolygonFileTree` returns for `squareLine`, `farLine`. -/
def farBuilt : Built :=
  ⟨.NODE [0, 1] 0 7
      (.NODE [0] 1 7
        (.NODE [0] 0 (7 / 2)
          (.NODE [0] 1 (7 / 2) (.LEAF [0]) (.LEAF [0]))
          (.NODE [0] 1 (7 / 2) (.LEAF [0]) (.LEAF [0])))
        (.LEAF []))
      (.NODE [1] 1 7
        (.LEAF [])
        (.NODE [1] 0 (21 / 2)
          (.NODE [1] 1 (21 / 2) (.LEAF [1]) (.LEAF [1]))
          (.NODE [1] 1 (21 / 2) (.LEAF [1]) (.LEAF [1])))),
    [squareP, farP], (0, 0), (14, 14)⟩

/-- The line `polygon(2,2,6,2,6,6,2,6)`, a square overlapping the first. -/
def shiftLine : Line := .fields [2, 2, 6, 2, 6, 6, 2, 6]

/-- The polygon read from `shiftLine` as second polygon. -/
def shiftP : Polygon := ⟨4, 1, [2, 6, 6, 2], [2, 2, 6, 6], (2, 2), (6, 6)⟩

/-- What `readPolygonFileTree` returns for `squareLine`, `shiftLine`. -/
def shiftBuilt : Built :=
  ⟨.NODE [0, 1] 0 3
      (.NODE [0, 1] 1 3 (.LEAF [0, 1]) (.LEAF [0, 1]))
      (.NODE [0, 1] 1 3 (.LEAF [0, 1]) (.LEAF [0, 1])),
    [squareP, shiftP], (0, 0), (6, 6)⟩

/-- The polygon read from `uprightLine` as second polygon. -/
def uprightP : Polygon := ⟨3, 1, [0, 0, 0], [0, 1, 2], (0, 0), (0, 2)⟩

/-- The line `polygon(0,0,1,0,1,1)`, a triangle. -/
def triangleLine : Line := .fields [0, 0, 1, 0, 1, 1]

/-! ## Notions used to state the properties of the tree -/

/-- The nodes visited by the descent of `insidePolygonTree` for the query
point `x`, the root first. -/
def visited : Node → ℚ × ℚ → List Node
  | .LEAF ids, _ => [.LEAF ids]
  | .NODE ids SplitDim SplitValue Left Right, x =>
    .NODE ids SplitDim SplitValue Left Right ::
      (if ids.length = 0 then []
       else if at2 x SplitDim < SplitValue then visited Left x
       else visited Right x)

/-- A node of a tree with its depth and its region rectangle. -/
structure Placed where
  node : Node
  depth : Nat
  xmin : ℚ × ℚ
  xmax : ℚ × ℚ

/-- All the nodes of a tree whose root has depth `k` and region `xmin`, `xmax`:
the region of a left child is its parent's with `xmax[SplitDim]` set to
`SplitValue`, that of a right child its parent's with `xmin[SplitDim]` set to
`SplitValue`. -/
def nodesAt : Node → Nat → ℚ × ℚ → ℚ × ℚ → List Placed
  | .LEAF ids, k, xmin, xmax => [⟨.LEAF ids, k, xmin, xmax⟩]
  | .NODE ids d v l r, k, xmin, xmax =>
    ⟨.NODE ids d v l r, k, xmin, xmax⟩ ::
      (nodesAt l (k + 1) xmin (set2 xmax d v) ++ nodesAt r (k + 1) (set2 xmin d v) xmax)

/-- The closed bounding box of `p` and the closed rectangle `xmin`, `xmax` have
a common point. -/
def boxOverlaps (p : Polygon) (xmin xmax : ℚ × ℚ) : Prop :=
  p.xmin.1 ≤ xmax.1 ∧ xmin.1 ≤ p.xmax.1 ∧ p.xmin.2 ≤ xmax.2 ∧ xmin.2 ≤ p.xmax.2

/-- The cached box of `p` bounds every vertex of `p`. -/
def boxBounds (p : Polygon) : Prop :=
  ∀ j, j < p.N →
    p.xmin.1 ≤ p.x.getD j 0 ∧ p.x.getD j 0 ≤ p.xmax.1 ∧
    p.xmin.2 ≤ p.y.getD j 0 ∧ p.y.getD j 0 ≤ p.xmax.2

/-- Each side of the cached box of `p` is the coordinate of a vertex of `p`. -/
def boxAttained (p : Polygon) : Prop :=
  (∃ j, j < p.N ∧ p.x.getD j 0 = p.xmin.1) ∧ (∃ j, j < p.N ∧ p.x.getD j 0 = p.xmax.1) ∧
  (∃ j, j < p.N ∧ p.y.getD j 0 = p.xmin.2) ∧ (∃ j, j < p.N ∧ p.y.getD j 0 = p.xmax.2)

/-- The numerator of `s` for edge `j`. -/
def edgeSnum (p : Polygon) (x0 x : ℚ × ℚ) (j : Nat) : ℚ :=
  (x.1 - x0.1) * (p.y.getD j 0 - x.2) - (x.2 - x0.2) * (p.x.getD j 0 - x.1)

/-- The numerator of `t` for edge `j`. -/
def edgeTnum (p : Polygon) (x : ℚ × ℚ) (j : Nat) : ℚ :=
  (p.x.getD j 0 - x.1) * (p.y.getD (nextVertex p.N j) 0 - p.y.getD j 0)
    - (p.y.getD j 0 - x.2) * (p.x.getD (nextVertex p.N j) 0 - p.x.getD j 0)

/-! ## IEEE-754 quotients -/

/-- The value of a `double` quotient in IEEE-754 arithmetic: a finite number,
an infinity or a NaN. -/
inductive Quot754 where
  | finite (q : ℚ) : Quot754
  | posInf : Quot754
  | negInf : Quot754
  | nan : Quot754
  deriving DecidableEq

/-- The IEEE-754 quotient `a / b` of two finite doubles; `negZero` tells whether
a zero denominator is `-0.0`. -/
def ieeeDiv (a b : ℚ) (negZero : Bool) : Quot754 :=
  if b = 0 then
    if a = 0 then .nan
    else if decide (0 < a) = !negZero then .posInf
    else .negInf
  else .finite (a / b)

/-- The IEEE-754 comparison `u < v`: false as soon as one side is a NaN. -/
def Quot754.lt : Quot754 → Quot754 → Bool
  | .finite a, .finite b => decide (a < b)
  | .finite _, .posInf => true
  | .negInf, .finite _ => true
  | .negInf, .posInf => true
  | _, _ => false

/-- The test `0.0 < s && s < 1.0 + EPS` on an IEEE-754 quotient. -/
def inOpen754 (EPS : ℚ) (s : Quot754) : Bool :=
  Quot754.lt (.finite 0) s && Quot754.lt s (.finite (1 + EPS))

/-! ## More concrete inputs -/

/-- The line `polygon(5)`: one field, no complete vertex. -/
def loneLine : Line := .fields [5]

/-- The line `polygon(1,7,3,7,3,9)`, a triangle. -/
def raisedLine : Line := .fields [1, 7, 3, 7, 3, 9]

/-- The polygon read from `raisedLine`. -/
def raisedP : Polygon := ⟨3, 0, [1, 3, 3], [7, 7, 9], (1, 7), (3, 9)⟩

/-- The polygon stored for `loneLine` after `raisedLine`: no vertex, and a box
made of the field `5` and of the second field of the line before. -/
def loneP : Polygon := ⟨0, 1, [], [], (5, 7), (5, 7)⟩

/-- The polygon stored for a skipped line after `squareLine`: the square again,
as polygon `1`. -/
def againP : Polygon := ⟨4, 1, [0, 4, 4, 0], [0, 0, 4, 4], (0, 0), (4, 4)⟩

/-- The line `polygon(2,1,2,2,2,3)`: three vertices on the vertical line
`x = 2`. -/
def midLine : Line := .fields [2, 1, 2, 2, 2, 3]

/-- The polygon read from `midLine` as second polygon. -/
def midP : Polygon := ⟨3, 1, [2, 2, 2], [1, 2, 3], (2, 1), (2, 3)⟩

/-- What `readPolygonFileTree` returns for `squareLine`, `midLine`. -/
def midBuilt : Built :=
  ⟨.NODE [0, 1] 0 2 (.NODE [0] 1 2 (.LEAF [0]) (.LEAF [0])) (.NODE [0] 1 2 (.LEAF [0]) (.LEAF [0])),
    [squareP, midP], (0, 0), (4, 4)⟩

/-! ## The crossing solve in `double` arithmetic

The query with the rounding of every arithmetic operation made explicit: `fl`
sends the exact result of one operation to the `double` that the operation
returns.  With `fl` the identity this is the exact solve `edgeD`, `edgeS`,
`edgeT` above.  With `fl = round64` it is the solve in IEEE-754 binary64
arithmetic, for coordinates that are doubles, as long as no operation
overflows and each operation is rounded on its own (no fused multiply-add, no
extended precision).  The comparisons are exact in both. -/

/-- Quotient of two doubles, rounded; `none` stands for the non-finite value
that a zero denominator produces. -/
def fdivFl (fl : ℚ → ℚ) (a b : ℚ) : Option ℚ := if b = 0 then none else some (fl (a / b))

/-- The test `0.0 < s && s < 1.0 + EPS` on a computed quotient, the sum
`1.0 + EPS` being rounded. -/
def inOpenFl (fl : ℚ → ℚ) (EPS : ℚ) : Option ℚ → Bool
  | some s => decide (0 < s) && decide (s < fl (1 + EPS))
  | none => false

/-- The denominator `D` computed for edge `j` of polygon `p`. -/
def edgeDFl (fl : ℚ → ℚ) (p : Polygon) (x0 x : ℚ × ℚ) (j : Nat) : ℚ :=
  fl (fl (fl (p.x.getD (nextVertex p.N j) 0 - p.x.getD j 0) * fl (x.2 - x0.2))
    - fl (fl (p.y.getD (nextVertex p.N j) 0 - p.y.getD j 0) * fl (x.1 - x0.1)))

/-- The parameter `s` computed for edge `j`. -/
def edgeSFl (fl : ℚ → ℚ) (p : Polygon) (x0 x : ℚ × ℚ) (j : Nat) : Option ℚ :=
  fdivFl fl
    (fl (fl (fl (x.1 - x0.1) * fl (p.y.getD j 0 - x.2))
      - fl (fl (x.2 - x0.2) * fl (p.x.getD j 0 - x.1))))
    (edgeDFl fl p x0 x j)

/-- The parameter `t` computed for edge `j`. -/
def edgeTFl (fl : ℚ → ℚ) (p : Polygon) (x0 x : ℚ × ℚ) (j : Nat) : Option ℚ :=
  fdivFl fl
    (fl (fl (fl (p.x.getD j 0 - x.1) * fl (p.y.getD (nextVertex p.N j) 0 - p.y.getD j 0))
      - fl (fl (p.y.getD j 0 - x.2) * fl (p.x.getD (nextVertex p.N j) 0 - p.x.getD j 0))))
    (edgeDFl fl p x0 x j)

/-- The condition under which the loop over the edges does `Ncross++`, on the
computed parameters. -/
def crossedFl (fl : ℚ → ℚ) (EPS : ℚ) (p : Polygon) (x0 x : ℚ × ℚ) (j : Nat) : Bool :=
  inOpenFl fl EPS (edgeSFl fl p x0 x j) && inOpenFl fl EPS (edgeTFl fl p x0 x j)

/-- Value of `Ncross` after the loop `for(j=0;j<polys[i].N;j++)`, on the
computed parameters. -/
def NcrossFl (fl : ℚ → ℚ) (EPS : ℚ) (p : Polygon) (x0 x : ℚ × ℚ) : Nat :=
  ((List.range p.N).filter (crossedFl fl EPS p x0 x)).length

/-- Both tests of the leaf loop, on the computed parameters. -/
def hitFl (fl : ℚ → ℚ) (EPS : ℚ) (p : Polygon) (x0 x : ℚ × ℚ) : Bool :=
  inBox p x && decide (NcrossFl fl EPS p x0 x % 2 = 1)

/-- The loop of a leaf over the member ids, on the computed parameters. -/
def leafScanFl (fl : ℚ → ℚ) (EPS : ℚ) (polysAll : List Polygon) (x0 x : ℚ × ℚ) :
    List Nat → Int × Int
  | [] => (0, -1)
  | i :: rest =>
    if hitFl fl EPS (polysAll.getD i Polygon.none) x0 x then (1, (i : Int))
    else leafScanFl fl EPS polysAll x0 x rest

/-- The function `insidePolygonTree` in `double` arithmetic: the pair is the
returned value and `*poly_id`. -/
def insidePolygonTreeFl (fl : ℚ → ℚ) (EPS : ℚ) (polysAll : List Polygon) :
    Node → ℚ × ℚ → ℚ × ℚ → Int × Int
  | .LEAF ids, x0, x =>
    if ids.length = 0 then (0, -1) else leafScanFl fl EPS polysAll x0 x ids
  | .NODE ids SplitDim SplitValue Left Right, x0, x =>
    if ids.length = 0 then (0, -1)
    else if at2 x SplitDim < SplitValue then insidePolygonTreeFl fl EPS polysAll Left x0 x
    else insidePolygonTreeFl fl EPS polysAll Right x0 x

/-- The exact results of the operations that the code performs for edge `j`:
the six differences, the six products, `D`, the two numerators and the two
quotients. -/
def edgeOps (p : Polygon) (x0 x : ℚ × ℚ) (j : Nat) : List ℚ :=
  [p.x.getD (nextVertex p.N j) 0 - p.x.getD j 0, x.2 - x0.2,
    p.y.getD (nextVertex p.N j) 0 - p.y.getD j 0, x.1 - x0.1,
    p.y.getD j 0 - x.2, p.x.getD j 0 - x.1,
    (p.x.getD (nextVertex p.N j) 0 - p.x.getD j 0) * (x.2 - x0.2),
    (p.y.getD (nextVertex p.N j) 0 - p.y.getD j 0) * (x.1 - x0.1),
    (x.1 - x0.1) * (p.y.getD j 0 - x.2),
    (x.2 - x0.2) * (p.x.getD j 0 - x.1),
    (p.x.getD j 0 - x.1) * (p.y.getD (nextVertex p.N j) 0 - p.y.getD j 0),
    (p.y.getD j 0 - x.2) * (p.x.getD (nextVertex p.N j) 0 - p.x.getD j 0),
    edgeD p x0 x j, edgeSnum p x0 x j, edgeTnum p x j,
    edgeSnum p x0 x j / edgeD p x0 x j, edgeTnum p x j / edgeD p x0 x j]

/-! ## Rounding to a `double` -/

/-- The power `2^e` for an integer exponent `e`. -/
def pow2 (e : Int) : ℚ :=
  if 0 ≤ e then ((2 ^ e.toNat : Nat) : ℚ) else 1 / ((2 ^ (-e).toNat : Nat) : ℚ)

/-- The number of halvings that bring `n` below `2`, at most `fuel` of them. -/
def halvings : Nat → Nat → Nat
  | 0, _ => 0
  | fuel + 1, n => if 2 ≤ n then halvings fuel (n / 2) + 1 else 0

/-- The binary exponent of a positive rational `a`: the integer `e` with
`2^e ≤ a < 2^(e+1)`, found next to the difference of the bit lengths of the
numerator and the denominator. -/
def binade (a : ℚ) : Int :=
  if pow2 ((halvings a.num.natAbs a.num.natAbs : Int) - (halvings a.den a.den : Int)) ≤ a
  then (halvings a.num.natAbs a.num.natAbs : Int) - (halvings a.den a.den : Int)
  else (halvings a.num.natAbs a.num.natAbs : Int) - (halvings a.den a.den : Int) - 1

/-- The integer nearest to `m`, the even one of the two when `m` is half-way
between two integers. -/
def nearestEven (m : ℚ) : Int :=
  if m - ⌊m⌋ < 1 / 2 then ⌊m⌋
  else if 1 / 2 < m - ⌊m⌋ then ⌊m⌋ + 1
  else if ⌊m⌋ % 2 = 0 then ⌊m⌋ else ⌊m⌋ + 1

/-- The `double` nearest to `q` (IEEE-754 binary64, rounding to nearest, ties
to even): the nearest multiple of `2^(e-52)`, `e` being the binary exponent of
`q`, and of `2^-1074` below the normal range.  Overflow is not modelled: the
exponent is not bounded from above. -/
def round64 (q : ℚ) : ℚ :=
  if q = 0 then 0
  else (nearestEven (q / pow2 (max (binade |q| - 52) (-1074))) : ℚ)
    * pow2 (max (binade |q| - 52) (-1074))

/-- The loop of `determineMachineEpsilon`: halve `u` until `1.0 + u` is no
longer above `1.0`. -/
def epsilonLoop (fl : ℚ → ℚ) : Nat → ℚ → Option ℚ
  | 0, _ => none
  | fuel + 1, u =>
    if fl (1 + fl (u / 2)) > 1 then epsilonLoop fl fuel (fl (u / 2)) else some (fl (u / 2))

/-- The function `determineMachineEpsilon`, whose result `main` stores in
`EPS`: `100.0 * u` for the `u` at which the loop stops. -/
def determineMachineEpsilon (fl : ℚ → ℚ) (fuel : Nat) : Option ℚ :=
  match epsilonLoop fl fuel 1 with
  | none => none
  | some u => some (fl (100 * u))

/-- The line `polygon(0.6,0.5,0.4,0.1,0.2,0.3)`, a triangle: each field is the
double nearest to the decimal number. -/
def decimalLine : Line :=
  .fields [round64 (3 / 5), round64 (1 / 2), round64 (2 / 5), round64 (1 / 10),
    round64 (1 / 5), round64 (3 / 10)]

/-- The polygon read from `decimalLine`. -/
def decimalP : Polygon :=
  readPolygon 0 6 [round64 (3 / 5), round64 (1 / 2), round64 (2 / 5), round64 (1 / 10),
    round64 (1 / 5), round64 (3 / 10)]

end Venice

namespace Venice

/-! ## Fuel -/

/-- More fuel does not change a finished build (one step). -/
theorem createNode_succ (fuel : Nat) :
    ∀ (polys : List Polygon) (minArea : ℚ) (d : Nat) (xmin xmax : ℚ × ℚ) (t : Node),
      createNode fuel polys minArea d xmin xmax = some t →
      createNode (fuel + 1) polys minArea d xmin xmax = some t := by
  induction fuel with
  | zero => intro _ _ _ _ _ _ h; simp [createNode] at h
  | succ n ih =>
    intro polys minArea d xmin xmax t h
    rw [createNode] at h
    rw [createNode]
    by_cases hc : polys.length = 0 ∨ regionArea xmin xmax < minArea
    · rw [if_pos hc] at h ⊢
      exact h
    · rw [if_neg hc] at h ⊢
      revert h
      cases hl : createNode n (leftPolys polys d (splitValue d xmin xmax)) minArea (childDim d)
          xmin (set2 xmax d (splitValue d xmin xmax)) with
      | none => intro h; exact absurd h (by simp)
      | some l =>
        cases hr : createNode n (rightPolys polys d (splitValue d xmin xmax)) minArea
            (childDim d) (set2 xmin d (splitValue d xmin xmax)) xmax with
        | none => intro h; exact absurd h (by simp)
        | some r =>
          intro h
          rw [ih _ _ _ _ _ _ hl, ih _ _ _ _ _ _ hr]
          exact h

/-- More fuel does not change a finished build. -/
theorem createNode_mono {f g : Nat} (hfg : f ≤ g) (polys : List Polygon) (minArea : ℚ)
    (d : Nat) (xmin xmax : ℚ × ℚ) (t : Node)
    (h : createNode f polys minArea d xmin xmax = some t) :
    createNode g polys minArea d xmin xmax = some t := by
  induction hfg with
  | refl => exact h
  | step _ ih => exact createNode_succ _ _ _ _ _ _ _ ih

/-- A node without polygons is a leaf as soon as there is fuel. -/
theorem createNode_nil (fuel : Nat) (minArea : ℚ) (d : Nat) (xmin xmax : ℚ × ℚ) :
    createNode (fuel + 1) [] minArea d xmin xmax = some (.LEAF []) := by
  simp [createNode]

/-- The two cases of one call of `createNode`. -/
theorem createNode_cases {fuel : Nat} {polys : List Polygon} {minArea : ℚ} {d : Nat}
    {xmin xmax : ℚ × ℚ} {t : Node}
    (h : createNode (fuel + 1) polys minArea d xmin xmax = some t) :
    ((polys.length = 0 ∨ regionArea xmin xmax < minArea) ∧
        t = .LEAF (polys.map (fun p => p.id))) ∨
    (¬ (polys.length = 0 ∨ regionArea xmin xmax < minArea) ∧ ∃ l r,
        createNode fuel (leftPolys polys d (splitValue d xmin xmax)) minArea (childDim d)
          xmin (set2 xmax d (splitValue d xmin xmax)) = some l ∧
        createNode fuel (rightPolys polys d (splitValue d xmin xmax)) minArea (childDim d)
          (set2 xmin d (splitValue d xmin xmax)) xmax = some r ∧
        t = .NODE (polys.map (fun p => p.id)) d (splitValue d xmin xmax) l r) := by
  rw [createNode] at h
  by_cases hc : polys.length = 0 ∨ regionArea xmin xmax < minArea
  · rw [if_pos hc] at h
    exact Or.inl ⟨hc, (Option.some.inj h).symm⟩
  · rw [if_neg hc] at h
    refine Or.inr ⟨hc, ?_⟩
    revert h
    cases hl : createNode fuel (leftPolys polys d (splitValue d xmin xmax)) minArea (childDim d)
        xmin (set2 xmax d (splitValue d xmin xmax)) with
    | none => intro h; exact absurd h (by simp)
    | some l =>
      cases hr : createNode fuel (rightPolys polys d (splitValue d xmin xmax)) minArea
          (childDim d) (set2 xmin d (splitValue d xmin xmax)) xmax with
      | none => intro h; exact absurd h (by simp)
      | some r =>
        intro h
        exact ⟨l, r, rfl, rfl, (Option.some.inj h).symm⟩

/-! ## The store -/

/-- A successful `readPolygonFileTree` is a successful read followed by a
finished build. -/
theorem readPolygonFileTree_inv {NVERTICES fuel : Nat} {lines : List Line} {b : Built}
    (h : readPolygonFileTree NVERTICES fuel lines = .ok (some b)) :
    ∃ ps, readPolygons NVERTICES lines = .ok ps ∧ buildTree fuel ps = some b := by
  unfold readPolygonFileTree at h
  cases hr : readPolygons NVERTICES lines with
  | error e => rw [hr] at h; exact absurd h (by simp)
  | ok ps =>
    rw [hr] at h
    exact ⟨ps, rfl, Except.ok.inj h⟩

/-- A successful read followed by a finished build is a successful
`readPolygonFileTree`. -/
theorem readPolygonFileTree_ok {NVERTICES fuel : Nat} {lines : List Line}
    {ps : List Polygon} {b : Built}
    (h1 : readPolygons NVERTICES lines = .ok ps) (h2 : buildTree fuel ps = some b) :
    readPolygonFileTree NVERTICES fuel lines = .ok (some b) := by
  unfold readPolygonFileTree
  rw [h1]
  simp only [h2]

/-- What a finished build hands back. -/
theorem buildTree_inv {fuel : Nat} {ps : List Polygon} {b : Built}
    (h : buildTree fuel ps = some b) :
    createNode fuel ps (minAreaOf ps) 0 (limits ps).1 (limits ps).2 = some b.tree ∧
      b.polysAll = ps ∧ b.xmin = (limits ps).1 ∧ b.xmax = (limits ps).2 := by
  unfold buildTree at h
  cases hc : createNode fuel ps (minAreaOf ps) 0 (limits ps).1 (limits ps).2 with
  | none => rw [hc] at h; exact absurd h (by simp)
  | some t =>
    rw [hc] at h
    have hb := Option.some.inj h
    subst hb
    exact ⟨rfl, rfl, rfl, rfl⟩

/-- The reading loop keeps one polygon per line. -/
theorem readLines_length (NVERTICES : Nat) :
    ∀ (lines : List Line) (i : Nat) (st : List ℚ × Nat) (ps : List Polygon),
      readLines NVERTICES i st lines = .ok ps → ps.length = lines.length := by
  intro lines
  induction lines with
  | nil => intro i st ps h; simp [readLines] at h; subst h; rfl
  | cons item rest ih =>
    intro i st ps h
    rw [readLines] at h
    by_cases hc : (getStrings item st).2 / 2 > NVERTICES
    · rw [if_pos hc] at h; exact absurd h (by simp)
    · rw [if_neg hc] at h
      revert h
      cases hr : readLines NVERTICES (i + 1) (getStrings item st) rest with
      | error e => intro h; exact absurd h (by simp)
      | ok qs =>
        intro h
        have := Except.ok.inj h
        subst this
        simp [ih _ _ _ hr]

/-- The polygon at position `k` of the store is the one stored for line `k`,
numbered from the start of the loop, from some content of the buffer and some
count; when line `k` is not skipped, the count is the number of its fields and
the buffer starts with them. -/
theorem readLines_getD (NVERTICES : Nat) :
    ∀ (lines : List Line) (i : Nat) (st : List ℚ × Nat) (ps : List Polygon),
      readLines NVERTICES i st lines = .ok ps →
      ∀ k, k < ps.length → ∃ (N : Nat) (item : List ℚ),
        ps.getD k Polygon.none = readPolygon (i + k) N item ∧
        (∀ vals, lines.getD k Line.skipped = Line.fields vals →
          N = vals.length ∧ ∃ rest, item = vals ++ rest) := by
  intro lines
  induction lines with
  | nil => intro i st ps h k hk; simp [readLines] at h; subst h; simp at hk
  | cons item rest ih =>
    intro i st ps h k hk
    rw [readLines] at h
    by_cases hc : (getStrings item st).2 / 2 > NVERTICES
    · rw [if_pos hc] at h; exact absurd h (by simp)
    · rw [if_neg hc] at h
      revert h
      cases hr : readLines NVERTICES (i + 1) (getStrings item st) rest with
      | error e => intro h; exact absurd h (by simp)
      | ok qs =>
        intro h
        have := Except.ok.inj h
        subst this
        cases k with
        | zero =>
          refine ⟨(getStrings item st).2, (getStrings item st).1, rfl, ?_⟩
          intro vals hv
          have hv' : item = Line.fields vals := hv
          subst hv'
          exact ⟨rfl, _, rfl⟩
        | succ k =>
          have hk' : k < qs.length := by simpa using hk
          obtain ⟨N, buf, h1, h2⟩ := ih _ _ _ hr k hk'
          refine ⟨N, buf, ?_, ?_⟩
          · simp only [List.getD_cons_succ]
            rw [h1]
            congr 1
            omega
          · simpa only [List.getD_cons_succ] using h2

/-- A store that was read is not empty and comes from the reading loop. -/
theorem readPolygons_inv {NVERTICES : Nat} {lines : List Line} {ps : List Polygon}
    (h : readPolygons NVERTICES lines = .ok ps) :
    readLines NVERTICES 0 ([], 0) lines = .ok ps ∧ ps.length ≠ 0 := by
  unfold readPolygons at h
  cases hr : readLines NVERTICES 0 ([], 0) lines with
  | error e => rw [hr] at h; exact absurd h (by simp)
  | ok qs =>
    rw [hr] at h
    by_cases hq : qs.length = 0
    · simp [hq] at h
    · simp only [hq, if_false] at h
      have := Except.ok.inj h
      subst this
      exact ⟨rfl, hq⟩

/-- In a store that was read the id of a polygon is its position. -/
theorem readPolygons_id {NVERTICES : Nat} {lines : List Line} {ps : List Polygon}
    (h : readPolygons NVERTICES lines = .ok ps) (k : Nat) (hk : k < ps.length) :
    (ps.getD k Polygon.none).id = k := by
  obtain ⟨N, item, h1, _⟩ := readLines_getD NVERTICES lines 0 _ ps (readPolygons_inv h).1 k hk
  rw [h1]
  simp [readPolygon]

/-- In a store that was read, looking up the id of a member gives the member. -/
theorem readPolygons_lookup {NVERTICES : Nat} {lines : List Line} {ps : List Polygon}
    (h : readPolygons NVERTICES lines = .ok ps) (p : Polygon) (hp : p ∈ ps) :
    ps.getD p.id Polygon.none = p := by
  obtain ⟨k, hk, rfl⟩ := List.mem_iff_getElem.mp hp
  have h1 := readPolygons_id h k hk
  have h2 : ps.getD k Polygon.none = ps[k] := by simp [List.getD_eq_getElem?_getD, hk]
  rw [h2] at h1
  rw [h1, h2]

/-- In a store that was read the ids are `0, 1, 2, ...` in this order. -/
theorem readPolygons_ids {NVERTICES : Nat} {lines : List Line} {ps : List Polygon}
    (h : readPolygons NVERTICES lines = .ok ps) :
    ps.map (fun p => p.id) = List.range ps.length := by
  apply List.ext_getElem
  · simp
  · intro k h1 h2
    have hk : k < ps.length := by simpa using h1
    have := readPolygons_id h k hk
    have h2 : ps.getD k Polygon.none = ps[k] := by simp [List.getD_eq_getElem?_getD, hk]
    rw [h2] at this
    simp [this]

end Venice

namespace Venice

/-! ## The leaf loop and the descent -/

/-- The polygon read outside the store fails the bounding-box test. -/
theorem inBox_none (x : ℚ × ℚ) : inBox Polygon.none x = false := by
  simp only [inBox, Polygon.none]
  by_cases h : (0 : ℚ) < x.1
  · have : ¬ x.1 < 0 := not_lt.mpr (le_of_lt h)
    simp [this]
  · simp [h]

/-- A polygon that passes both tests of the leaf loop belongs to the store. -/
theorem hit_lt_length {EPS : ℚ} {polysAll : List Polygon} {x0 x : ℚ × ℚ} {k : Nat}
    (h : hit EPS (polysAll.getD k Polygon.none) x0 x = true) : k < polysAll.length := by
  by_contra hk
  have : polysAll.getD k Polygon.none = Polygon.none := by
    simp [List.getD_eq_getElem?_getD, List.getElem?_eq_none (not_lt.mp hk)]
  rw [this] at h
  simp [hit, inBox_none] at h

/-- One turn of the leaf loop. -/
theorem leafScan_cons (EPS : ℚ) (polysAll : List Polygon) (x0 x : ℚ × ℚ) (i : Nat)
    (rest : List Nat) :
    leafScan EPS polysAll x0 x (i :: rest)
      = if hit EPS (polysAll.getD i Polygon.none) x0 x = true then (1, (i : Int))
        else leafScan EPS polysAll x0 x rest := rfl

/-- The leaf loop returns "no polygon" or the first member that passes both
tests. -/
theorem leafScan_cases (EPS : ℚ) (polysAll : List Polygon) (x0 x : ℚ × ℚ) :
    ∀ ids : List Nat,
      (leafScan EPS polysAll x0 x ids = (0, -1) ∧
          ∀ k ∈ ids, hit EPS (polysAll.getD k Polygon.none) x0 x = false) ∨
      (∃ (pre : List Nat) (k : Nat) (post : List Nat), ids = pre ++ k :: post ∧
          leafScan EPS polysAll x0 x ids = (1, (k : Int)) ∧
          hit EPS (polysAll.getD k Polygon.none) x0 x = true ∧
          ∀ j ∈ pre, hit EPS (polysAll.getD j Polygon.none) x0 x = false) := by
  intro ids
  induction ids with
  | nil => left; exact ⟨rfl, fun k hk => absurd hk (List.not_mem_nil k)⟩
  | cons i rest ih =>
    by_cases hi : hit EPS (polysAll.getD i Polygon.none) x0 x = true
    · right
      refine ⟨[], i, rest, rfl, ?_, hi, fun j hj => absurd hj (List.not_mem_nil j)⟩
      rw [leafScan_cons, if_pos hi]
    · have hi' : hit EPS (polysAll.getD i Polygon.none) x0 x = false :=
        Bool.eq_false_iff.mpr hi
      rcases ih with ⟨h0, hall⟩ | ⟨pre, k, post, he, hr, hk, hpre⟩
      · left
        refine ⟨by rw [leafScan_cons, if_neg hi, h0], ?_⟩
        intro k hk
        rcases List.mem_cons.mp hk with rfl | hk
        · exact hi'
        · exact hall k hk
      · right
        refine ⟨i :: pre, k, post, by rw [he]; rfl, by rw [leafScan_cons, if_neg hi, hr], hk, ?_⟩
        intro j hj
        rcases List.mem_cons.mp hj with rfl | hj
        · exact hi'
        · exact hpre j hj

/-- Leaving out members that fail the tests does not change the leaf loop. -/
theorem leafScan_filter (EPS : ℚ) (polysAll : List Polygon) (x0 x : ℚ × ℚ)
    (keep : Polygon → Bool) :
    ∀ polys : List Polygon,
      (∀ p ∈ polys, keep p = false → hit EPS (polysAll.getD p.id Polygon.none) x0 x = false) →
      leafScan EPS polysAll x0 x ((polys.filter keep).map (fun p => p.id))
        = leafScan EPS polysAll x0 x (polys.map (fun p => p.id)) := by
  intro polys
  induction polys with
  | nil => intro _; rfl
  | cons p rest ih =>
    intro h
    have ih' := ih (fun q hq => h q (List.mem_cons_of_mem _ hq))
    by_cases hk : keep p = true
    · rw [List.filter_cons_of_pos hk, List.map_cons, List.map_cons, leafScan_cons,
        leafScan_cons, ih']
    · have hk' : keep p = false := Bool.eq_false_iff.mpr hk
      have hp := h p (List.mem_cons_self _ _) hk'
      rw [List.filter_cons_of_neg hk, List.map_cons, leafScan_cons, ih',
        if_neg (by rw [hp]; exact Bool.false_ne_true)]

/-- The function `insidePolygonTree` runs the leaf loop on the member list of
the node where the descent stops. -/
theorem insidePolygonTree_reached (EPS : ℚ) (polysAll : List Polygon) (x0 x : ℚ × ℚ) :
    ∀ t : Node, insidePolygonTree EPS polysAll t x0 x
      = leafScan EPS polysAll x0 x (reached t x) := by
  intro t
  induction t with
  | LEAF ids =>
    by_cases h : ids.length = 0
    · have : ids = [] := List.length_eq_zero.mp h
      subst this
      simp [insidePolygonTree, reached, leafScan]
    · simp [insidePolygonTree, reached, h]
  | NODE ids d v l r ihl ihr =>
    by_cases h : ids.length = 0
    · have : ids = [] := List.length_eq_zero.mp h
      subst this
      simp [insidePolygonTree, reached, leafScan]
    · by_cases hx : at2 x d < v
      · simp only [insidePolygonTree, reached, h, hx, if_true, if_false, ihl]
      · simp only [insidePolygonTree, reached, h, hx, if_false, ihr]

/-- A polygon whose box lies at or beyond the split value on the side away from
the query point fails the bounding-box test (left turn). -/
theorem inBox_false_of_left {p : Polygon} {x : ℚ × ℚ} {d : Nat} {v : ℚ}
    (hx : at2 x d < v) (hp : ¬ at2 p.xmin d < v) : inBox p x = false := by
  unfold at2 at hx hp
  by_cases hd : d = 0
  · simp only [hd, if_true] at hx hp
    have : ¬ p.xmin.1 < x.1 := by intro h; exact hp (lt_trans h hx)
    simp [inBox, this]
  · simp only [hd, if_false] at hx hp
    have : ¬ p.xmin.2 < x.2 := by intro h; exact hp (lt_trans h hx)
    simp [inBox, this]

/-- The same for a right turn. -/
theorem inBox_false_of_right {p : Polygon} {x : ℚ × ℚ} {d : Nat} {v : ℚ}
    (hx : ¬ at2 x d < v) (hp : ¬ at2 p.xmax d > v) : inBox p x = false := by
  unfold at2 at hx hp
  by_cases hd : d = 0
  · simp only [hd, if_true] at hx hp
    have : ¬ x.1 < p.xmax.1 := by
      intro h; exact hp (lt_of_le_of_lt (not_lt.mp hx) h)
    simp [inBox, this]
  · simp only [hd, if_false] at hx hp
    have : ¬ x.2 < p.xmax.2 := by
      intro h; exact hp (lt_of_le_of_lt (not_lt.mp hx) h)
    simp [inBox, this]

/-- On a tree built by `createNode` the query gives the result of the leaf
loop run over all the polygons handed to `createNode`. -/
theorem query_eq_scan (EPS : ℚ) (polysAll : List Polygon) (x0 x : ℚ × ℚ) (fuel : Nat) :
    ∀ (polys : List Polygon) (minArea : ℚ) (d : Nat) (xmin xmax : ℚ × ℚ) (t : Node),
      (∀ p ∈ polys, polysAll.getD p.id Polygon.none = p) →
      createNode fuel polys minArea d xmin xmax = some t →
      insidePolygonTree EPS polysAll t x0 x
        = leafScan EPS polysAll x0 x (polys.map (fun p => p.id)) := by
  induction fuel with
  | zero => intro _ _ _ _ _ _ _ h; simp [createNode] at h
  | succ n ih =>
    intro polys minArea d xmin xmax t hst h
    rcases createNode_cases h with ⟨_, rfl⟩ | ⟨hc, l, r, hl, hr, rfl⟩
    · rw [insidePolygonTree_reached]; rfl
    · have hne : ¬ (polys.map (fun p => p.id)).length = 0 := by
        intro h0; exact hc (Or.inl (by simpa using h0))
      by_cases hx : at2 x d < splitValue d xmin xmax
      · simp only [insidePolygonTree, hne, hx, if_true, if_false]
        rw [ih _ _ _ _ _ _ (fun p hp => hst p (List.mem_of_mem_filter hp)) hl]
        apply leafScan_filter
        intro p hp hk
        have hk' : ¬ at2 p.xmin d < splitValue d xmin xmax := by simpa using hk
        rw [hst p hp]
        simp [hit, inBox_false_of_left hx hk']
      · simp only [insidePolygonTree, hne, hx, if_false]
        rw [ih _ _ _ _ _ _ (fun p hp => hst p (List.mem_of_mem_filter hp)) hr]
        apply leafScan_filter
        intro p hp hk
        have hk' : ¬ at2 p.xmax d > splitValue d xmin xmax := by simpa using hk
        rw [hst p hp]
        simp [hit, inBox_false_of_right hx hk']

/-- Every node of a tree built by `createNode` lists, in their order, ids of
polygons handed to `createNode`. -/
theorem createNode_members (fuel : Nat) :
    ∀ (polys : List Polygon) (minArea : ℚ) (d : Nat) (xmin xmax : ℚ × ℚ) (t : Node),
      createNode fuel polys minArea d xmin xmax = some t →
      ∀ n ∈ t.subtrees, List.Sublist n.poly_id (polys.map (fun p => p.id)) := by
  induction fuel with
  | zero => intro _ _ _ _ _ _ h; simp [createNode] at h
  | succ k ih =>
    intro polys minArea d xmin xmax t h n hn
    rcases createNode_cases h with ⟨_, rfl⟩ | ⟨_, l, r, hl, hr, rfl⟩
    · simp only [Node.subtrees, List.mem_singleton] at hn
      subst hn
      exact List.Sublist.refl _
    · simp only [Node.subtrees, List.mem_cons, List.mem_append] at hn
      rcases hn with rfl | hn | hn
      · exact List.Sublist.refl _
      · exact (ih _ _ _ _ _ _ hl n hn).trans ((List.filter_sublist _).map _)
      · exact (ih _ _ _ _ _ _ hr n hn).trans ((List.filter_sublist _).map _)

end Venice

namespace Venice

/-- The leaf loop over the ids `s, s+1, ..., s+n-1` returns the lowest id that
passes both tests. -/
theorem leafScan_range' (EPS : ℚ) (polysAll : List Polygon) (x0 x : ℚ × ℚ) (i : Nat) :
    ∀ (n s : Nat), leafScan EPS polysAll x0 x (List.range' s n) = (1, (i : Int)) ↔
      (s ≤ i ∧ i < s + n ∧ hit EPS (polysAll.getD i Polygon.none) x0 x = true ∧
        ∀ j, s ≤ j → j < i → hit EPS (polysAll.getD j Polygon.none) x0 x = false) := by
  intro n
  induction n with
  | zero =>
    intro s
    constructor
    · intro h
      have h1 := congrArg Prod.fst h
      simp [leafScan] at h1
    · rintro ⟨h1, h2, _, _⟩
      omega
  | succ n ih =>
    intro s
    rw [List.range'_succ, leafScan_cons]
    by_cases hs : hit EPS (polysAll.getD s Polygon.none) x0 x = true
    · rw [if_pos hs]
      constructor
      · intro h
        have h2 : (s : Int) = (i : Int) := congrArg Prod.snd h
        have h3 : s = i := by exact_mod_cast h2
        subst h3
        exact ⟨le_refl _, by omega, hs, fun j h1 h2 => absurd h2 (by omega)⟩
      · rintro ⟨h1, _, _, h4⟩
        have : s = i := by
          by_contra hne
          have := h4 s (le_refl _) (by omega)
          rw [this] at hs
          exact Bool.false_ne_true hs
        rw [this]
    · rw [if_neg hs, ih (s + 1)]
      have hs' : hit EPS (polysAll.getD s Polygon.none) x0 x = false := Bool.eq_false_iff.mpr hs
      constructor
      · rintro ⟨h1, h2, h3, h4⟩
        refine ⟨by omega, by omega, h3, ?_⟩
        intro j hj1 hj2
        by_cases hjs : j = s
        · rw [hjs]; exact hs'
        · exact h4 j (by omega) hj2
      · rintro ⟨h1, h2, h3, h4⟩
        have hne : s ≠ i := by
          intro he
          rw [he] at hs
          exact hs h3
        exact ⟨by omega, by omega, h3, fun j hj1 hj2 => h4 j (by omega) hj2⟩

/-- On the index of a store that was read, the query is the leaf loop over all
the ids `0, 1, ..., Npolys-1` of the store. -/
theorem built_query_eq_scan {NVERTICES fuel : Nat} {lines : List Line} {b : Built}
    (hb : readPolygonFileTree NVERTICES fuel lines = .ok (some b)) (EPS : ℚ) (x0 x : ℚ × ℚ) :
    insidePolygonTree EPS b.polysAll b.tree x0 x
      = leafScan EPS b.polysAll x0 x (List.range b.polysAll.length) := by
  obtain ⟨ps, h1, h2⟩ := readPolygonFileTree_inv hb
  obtain ⟨hc, hp, _, _⟩ := buildTree_inv h2
  rw [hp, ← readPolygons_ids h1]
  exact query_eq_scan EPS ps x0 x fuel ps _ _ _ _ _ (readPolygons_lookup h1) hc

/-- The square `(0,0),(4,0),(4,4),(0,4)` is read and indexed as `squareBuilt`. -/
theorem readPolygonFileTree_square (NVERTICES fuel : Nat) (hN : 4 ≤ NVERTICES)
    (hf : 2 ≤ fuel) :
    readPolygonFileTree NVERTICES fuel [squareLine] = .ok (some squareBuilt) := by
  have hg : getStrings squareLine ([], 0) = ([0, 0, 4, 0, 4, 4, 0, 4], 8) := by decide
  have hp : readPolygon 0 8 [0, 0, 4, 0, 4, 4, 0, 4] = squareP := by decide
  have hl : 8 / 2 = 4 := by decide
  have hm : minAreaOf [squareP] = 16 := by decide!
  have hlim : limits [squareP] = ((0, 0), (4, 4)) := by decide
  have hc : createNode 2 [squareP] 16 0 (0, 0) (4, 4) = some squareTree := by decide!
  have hc2 := createNode_mono hf _ _ _ _ _ _ hc
  have hnot : ¬ (4 > NVERTICES) := by omega
  have h1 : readPolygons NVERTICES [squareLine] = .ok [squareP] := by
    simp only [readPolygons, readLines, hg, hl, hnot, hp, if_false]
    rfl
  apply readPolygonFileTree_ok h1
  simp only [buildTree, hm, hlim, hc2, squareBuilt]

/-- The point `(2,2)` is found inside the square for every positive `EPS`. -/
theorem square_inside (EPS : ℚ) (hE : 0 < EPS) :
    insidePolygonTree EPS [squareP] squareTree (-1, -1) (2, 2) = (1, 0) := by
  have s0 : edgeS squareP (-1, -1) (2, 2) 0 = some 0 := by decide!
  have s1 : edgeT squareP (-1, -1) (2, 2) 1 = some (-2 / 3) := by decide!
  have s2 : edgeS squareP (-1, -1) (2, 2) 2 = some 0 := by decide!
  have s3 : edgeS squareP (-1, -1) (2, 2) 3 = some 1 := by decide!
  have t3 : edgeT squareP (-1, -1) (2, 2) 3 = some (2 / 3) := by decide!
  have c0 : crossed EPS squareP (-1, -1) (2, 2) 0 = false := by simp [crossed, s0, inOpen]
  have c1 : crossed EPS squareP (-1, -1) (2, 2) 1 = false := by simp [crossed, s1, inOpen]
  have c2 : crossed EPS squareP (-1, -1) (2, 2) 2 = false := by simp [crossed, s2, inOpen]
  have c3 : crossed EPS squareP (-1, -1) (2, 2) 3 = true := by
    simp [crossed, s3, t3, inOpen]
    exact ⟨hE, by linarith⟩
  have hr : List.range squareP.N = [0, 1, 2, 3] := by decide
  have hn : Ncross EPS squareP (-1, -1) (2, 2) = 1 := by
    simp [Ncross, hr, List.filter_cons, c0, c1, c2, c3]
  have hb : inBox squareP (2, 2) = true := by decide
  simp [insidePolygonTree, squareTree, at2, leafScan, hit, hb, hn]

/-- A point that fails the bounding-box test of the square is reported outside,
whatever `EPS` and the reference point. -/
theorem square_outside (EPS : ℚ) (x0 x : ℚ × ℚ) (hb : inBox squareP x = false) :
    insidePolygonTree EPS [squareP] squareTree x0 x = (0, -1) := by
  rw [insidePolygonTree_reached]
  have : ∀ ids, ids = [0] → leafScan EPS [squareP] x0 x ids = (0, -1) := by
    intro ids h
    subst h
    simp [leafScan, hit, hb]
  by_cases hx : at2 x 0 < 2
  · simp only [squareTree, reached, hx, if_true]
    exact this _ rfl
  · simp only [squareTree, reached, hx, if_false]
    exact this _ rfl

/-! ## The claims -/

/-- C1: for the index built from the single square `(0,0),(4,0),(4,4),(0,4)`,
with reference point `(-1,-1)` and any tolerance `EPS > 0`, the build returns
a tree on which `insidePolygonTree` reports `(2,2)` inside (value `1`,
`poly_id` `0`) and `(5,5)` outside (value `0`, `poly_id` `-1`). -/
theorem C1_square_inside_and_outside (NVERTICES fuel : Nat) (EPS : ℚ)
    (hN : 4 ≤ NVERTICES) (hf : 2 ≤ fuel) (hE : 0 < EPS) :
    ∃ b, readPolygonFileTree NVERTICES fuel [squareLine] = .ok (some b) ∧
      insidePolygonTree EPS b.polysAll b.tree (-1, -1) (2, 2) = (1, 0) ∧
      insidePolygonTree EPS b.polysAll b.tree (-1, -1) (5, 5) = (0, -1) :=
  ⟨squareBuilt, readPolygonFileTree_square NVERTICES fuel hN hf, square_inside EPS hE,
    square_outside EPS _ _ (by decide)⟩

/-- C1 at `NVERTICES = 100`, fuel `2` and the machine tolerance. -/
theorem C1_square_witness :
    (4 ≤ 100 ∧ 2 ≤ 2 ∧ 0 < machineEPS) ∧
    ∃ b, readPolygonFileTree 100 2 [squareLine] = .ok (some b) ∧
      insidePolygonTree machineEPS b.polysAll b.tree (-1, -1) (2, 2) = (1, 0) ∧
      insidePolygonTree machineEPS b.polysAll b.tree (-1, -1) (5, 5) = (0, -1) :=
  ⟨⟨by decide, by decide, by decide!⟩,
    C1_square_inside_and_outside 100 2 machineEPS (by decide) (by decide) (by decide!)⟩

end Venice

namespace Venice

/-- A concrete read: the store is given by evaluation and the build by
evaluation at the same fuel. -/
theorem readPolygonFileTree_eval {NVERTICES fuel : Nat} {lines : List Line}
    (ps : List Polygon) {b : Built}
    (h1 : readLines NVERTICES 0 ([], 0) lines = .ok ps) (h0 : ps.length ≠ 0)
    (h2 : buildTree fuel ps = some b) :
    readPolygonFileTree NVERTICES fuel lines = .ok (some b) := by
  apply readPolygonFileTree_ok _ h2
  unfold readPolygons
  rw [h1]
  simp only [h0, if_false]

/-- C2 (evaluation at the failing input): for the triangle `(0,0),(4,0),(4,2)`,
the reference point `(-1,-1)` that the callers choose by default, strictly below
and left of its bounding box, and the query point `(1,1)`, which is strictly
inside the bounding box and separated from all three vertices by the line
`-X + 2Y = 0` (so outside the triangle), `insidePolygonTree` on the built index
reports the triangle (value `1`, `poly_id` `0`): the segment from the reference
point meets the triangle only at its vertex `(0,0)`, and `Ncross` is `1`. -/
theorem C2_vertex_graze_reports_outside_point :
    readPolygonFileTree 100 2 [grazeLine] = .ok (some grazeBuilt) ∧
    mask2d_x0 Config.default grazeBuilt = (-1, -1) ∧
    belowLeft (-1, -1) grazeP ∧
    inBox grazeP (1, 1) = true ∧
    separatedFrom grazeP (1, 1) (-1) 2 0 ∧
    Ncross machineEPS grazeP (-1, -1) (1, 1) = 1 ∧
    insidePolygonTree machineEPS grazeBuilt.polysAll grazeBuilt.tree (-1, -1) (1, 1)
      = (1, 0) := by
  refine ⟨readPolygonFileTree_eval [grazeP] (by rfl) (by decide) (by decide!),
    by decide!, by unfold belowLeft; decide!, by decide!, ?_, by decide!, by decide!⟩
  refine ⟨?_, by decide!⟩
  intro j hj
  have hj3 : j < 3 := hj
  interval_cases j <;> decide!

/-- C3 (counterexample): on the index built from the square, with reference
point `(-1,-1)` and the machine tolerance, the query at the vertex `(4,4)` does
not return "inside" (value `1`, `poly_id` `0`). -/
theorem C3_on_vertex_not_inside :
    readPolygonFileTree 100 2 [squareLine] = .ok (some squareBuilt) ∧
    insidePolygonTree machineEPS squareBuilt.polysAll squareBuilt.tree (-1, -1) (4, 4)
      ≠ (1, 0) :=
  ⟨readPolygonFileTree_square 100 2 (by decide) (by decide), by decide!⟩

/-- C3 (amended): for the index built from the square and reference point
`(-1,-1)`, the query at the vertex `(4,4)` has one outcome for every tolerance
`EPS`, fixed by the strict bounding-box test (which `(4,4)` fails) and not by
the widened interval: "outside" (value `0`, `poly_id` `-1`). -/
theorem C3_on_vertex_outside (NVERTICES fuel : Nat) (EPS : ℚ)
    (hN : 4 ≤ NVERTICES) (hf : 2 ≤ fuel) :
    ∃ b, readPolygonFileTree NVERTICES fuel [squareLine] = .ok (some b) ∧
      inBox (b.polysAll.getD 0 Polygon.none) (4, 4) = false ∧
      insidePolygonTree EPS b.polysAll b.tree (-1, -1) (4, 4) = (0, -1) :=
  ⟨squareBuilt, readPolygonFileTree_square NVERTICES fuel hN hf, by decide,
    square_outside EPS _ _ (by decide)⟩

/-- C3 (amended) at `NVERTICES = 100`, fuel `2` and the machine tolerance. -/
theorem C3_on_vertex_witness :
    (4 ≤ 100 ∧ 2 ≤ 2) ∧
    ∃ b, readPolygonFileTree 100 2 [squareLine] = .ok (some b) ∧
      inBox (b.polysAll.getD 0 Polygon.none) (4, 4) = false ∧
      insidePolygonTree machineEPS b.polysAll b.tree (-1, -1) (4, 4) = (0, -1) :=
  ⟨⟨by decide, by decide⟩, C3_on_vertex_outside 100 2 machineEPS (by decide) (by decide)⟩

/-- A point in the closed box of `a` is not strictly inside a box disjoint
from it. -/
theorem inBox_false_of_disjoint {a b : Polygon} {x : ℚ × ℚ}
    (hd : boxesDisjoint a b) (hx : inClosedBox a x) : inBox b x = false := by
  obtain ⟨h1, h2, h3, h4⟩ := hx
  apply Bool.eq_false_iff.mpr
  intro hb
  simp only [inBox, Bool.and_eq_true, decide_eq_true_eq] at hb
  obtain ⟨⟨⟨b1, b2⟩, b3⟩, b4⟩ := hb
  rcases hd with h | h | h | h <;> linarith

/-- C4: on the index built from any store, whenever the query returns `1` with
`poly_id` `i`, then `i` is the id (and position) of a polygon of the store and
the query point lies strictly inside its cached bounding box; so for two
polygons `A`, `B` of the store with disjoint bounding boxes and a query point
in the box of `A`, the `poly_id` returned is never the id of `B`, for every
reference point. -/
theorem C4_match_lies_in_box (NVERTICES fuel : Nat) (lines : List Line) (b : Built)
    (EPS : ℚ) (x0 x : ℚ × ℚ)
    (hb : readPolygonFileTree NVERTICES fuel lines = .ok (some b)) :
    (∀ i : Int, insidePolygonTree EPS b.polysAll b.tree x0 x = (1, i) →
      ∃ k : Nat, (k : Int) = i ∧ k < b.polysAll.length ∧
        (b.polysAll.getD k Polygon.none).id = k ∧
        inBox (b.polysAll.getD k Polygon.none) x = true) ∧
    (∀ A ∈ b.polysAll, ∀ B ∈ b.polysAll, boxesDisjoint A B → inClosedBox A x →
      (insidePolygonTree EPS b.polysAll b.tree x0 x).2 ≠ (B.id : Int)) := by
  obtain ⟨ps, h1, h2⟩ := readPolygonFileTree_inv hb
  obtain ⟨_, hp, _, _⟩ := buildTree_inv h2
  rw [hp]
  have key : ∀ i : Int, insidePolygonTree EPS ps b.tree x0 x = (1, i) →
      ∃ k : Nat, (k : Int) = i ∧ k < ps.length ∧ (ps.getD k Polygon.none).id = k ∧
        inBox (ps.getD k Polygon.none) x = true := by
    intro i hi
    rw [insidePolygonTree_reached] at hi
    rcases leafScan_cases EPS ps x0 x (reached b.tree x) with ⟨h0, _⟩ | ⟨_, k, _, _, hr, hk, _⟩
    · rw [h0] at hi
      exact absurd (congrArg Prod.fst hi) (show (0 : Int) ≠ 1 by decide)
    · rw [hr] at hi
      have hlt := hit_lt_length hk
      refine ⟨k, congrArg Prod.snd hi, hlt, readPolygons_id h1 k hlt, ?_⟩
      simp only [hit, Bool.and_eq_true] at hk
      exact hk.1
  refine ⟨key, ?_⟩
  intro A _ B hB hd hx heq
  rw [insidePolygonTree_reached] at heq key
  rcases leafScan_cases EPS ps x0 x (reached b.tree x) with ⟨h0, _⟩ | ⟨_, k, _, _, hr, _, _⟩
  · rw [h0] at heq
    have : (-1 : Int) = (B.id : Int) := heq
    omega
  · obtain ⟨k', hk1, _, _, hk4⟩ := key _ hr
    rw [hr] at heq
    have h3 : (k : Int) = (B.id : Int) := heq
    have h4 : k' = B.id := by exact_mod_cast hk1.trans h3
    rw [h4, readPolygons_lookup h1 B hB, inBox_false_of_disjoint hd hx] at hk4
    exact Bool.false_ne_true hk4

/-- C4 at the squares `(0,0)..(4,4)` and `(10,10)..(14,14)`, reference point
`(-1,-1)` and query point `(2,2)`. -/
theorem C4_match_witness :
    readPolygonFileTree 100 5 [squareLine, farLine] = .ok (some farBuilt) ∧
    squareP ∈ farBuilt.polysAll ∧ farP ∈ farBuilt.polysAll ∧
    boxesDisjoint squareP farP ∧ inClosedBox squareP (2, 2) ∧
    (insidePolygonTree machineEPS farBuilt.polysAll farBuilt.tree (-1, -1) (2, 2)).2
      ≠ (farP.id : Int) := by
  have hb : readPolygonFileTree 100 5 [squareLine, farLine] = .ok (some farBuilt) :=
    readPolygonFileTree_eval [squareP, farP] (by rfl) (by decide) (by decide!)
  have h1 : squareP ∈ farBuilt.polysAll := by decide
  have h2 : farP ∈ farBuilt.polysAll := by decide
  have h3 : boxesDisjoint squareP farP := by unfold boxesDisjoint; decide!
  have h4 : inClosedBox squareP (2, 2) := by unfold inClosedBox; decide!
  exact ⟨hb, h1, h2, h3, h4,
    (C4_match_lies_in_box 100 5 _ farBuilt machineEPS (-1, -1) (2, 2) hb).2
      squareP h1 farP h2 h3 h4⟩

end Venice

namespace Venice

/-- C5: in the tree built from a store that was read, the id of a polygon of
the store is its position, the member list `poly_id` of every node is in
strictly ascending id, the query returns the first member of the node where
the descent stops that passes the bounding-box and odd-crossing tests, and that
member is the lowest id among all the polygons of the store that pass them. -/
theorem C5_ascending_members_first_match (NVERTICES fuel : Nat) (lines : List Line)
    (b : Built) (EPS : ℚ) (x0 x : ℚ × ℚ)
    (hb : readPolygonFileTree NVERTICES fuel lines = .ok (some b)) :
    (∀ k, k < b.polysAll.length → (b.polysAll.getD k Polygon.none).id = k) ∧
    (∀ n ∈ b.tree.subtrees, List.Pairwise (fun i j => i < j) n.poly_id) ∧
    (∀ i : Nat, insidePolygonTree EPS b.polysAll b.tree x0 x = (1, (i : Int)) →
      ∃ pre post, reached b.tree x = pre ++ i :: post ∧
        ∀ j ∈ pre, hit EPS (b.polysAll.getD j Polygon.none) x0 x = false) ∧
    (∀ i : Nat, insidePolygonTree EPS b.polysAll b.tree x0 x = (1, (i : Int)) ↔
      (i < b.polysAll.length ∧ hit EPS (b.polysAll.getD i Polygon.none) x0 x = true ∧
        ∀ j, j < i → hit EPS (b.polysAll.getD j Polygon.none) x0 x = false)) := by
  have hscan := built_query_eq_scan hb EPS x0 x
  obtain ⟨ps, h1, h2⟩ := readPolygonFileTree_inv hb
  obtain ⟨hc, hp, _, _⟩ := buildTree_inv h2
  rw [hp] at hscan ⊢
  refine ⟨fun k hk => readPolygons_id h1 k hk, ?_, ?_, ?_⟩
  · intro n hn
    have hsub := createNode_members fuel _ _ _ _ _ _ hc n hn
    rw [readPolygons_ids h1] at hsub
    exact List.Pairwise.sublist hsub (List.pairwise_lt_range _)
  · intro i hi
    rw [insidePolygonTree_reached] at hi
    rcases leafScan_cases EPS ps x0 x (reached b.tree x) with
      ⟨h0, _⟩ | ⟨pre, k, post, he, hr, _, hpre⟩
    · rw [h0] at hi
      exact absurd (congrArg Prod.fst hi) (show (0 : Int) ≠ 1 by decide)
    · rw [hr] at hi
      have h3 : (k : Int) = (i : Int) := congrArg Prod.snd hi
      have h4 : k = i := by exact_mod_cast h3
      subst h4
      exact ⟨pre, post, he, hpre⟩
  · intro i
    rw [hscan, List.range_eq_range', leafScan_range']
    constructor
    · rintro ⟨_, h2, h3, h4⟩
      exact ⟨by omega, h3, fun j hj => h4 j (Nat.zero_le _) hj⟩
    · rintro ⟨h2, h3, h4⟩
      exact ⟨Nat.zero_le _, by omega, h3, fun j _ hj => h4 j hj⟩

/-- C5 at the overlapping squares `(0,0)..(4,4)` and `(2,2)..(6,6)`: the point
`(3,7/2)` passes the tests of both and the query returns polygon `0`. -/
theorem C5_first_match_witness :
    readPolygonFileTree 100 3 [squareLine, shiftLine] = .ok (some shiftBuilt) ∧
    hit machineEPS shiftP (-1, -1) (3, 7 / 2) = true ∧
    insidePolygonTree machineEPS shiftBuilt.polysAll shiftBuilt.tree (-1, -1) (3, 7 / 2)
      = (1, ((0 : Nat) : Int)) := by
  have hb : readPolygonFileTree 100 3 [squareLine, shiftLine] = .ok (some shiftBuilt) :=
    readPolygonFileTree_eval [squareP, shiftP] (by rfl) (by decide) (by decide!)
  refine ⟨hb, by decide!, ?_⟩
  exact ((C5_ascending_members_first_match 100 3 _ shiftBuilt machineEPS (-1, -1) (3, 7 / 2)
    hb).2.2.2 0).mpr ⟨by decide, by decide!, fun j hj => absurd hj (Nat.not_lt_zero j)⟩

/-! ## Degenerate boxes and regions -/

/-- A polygon whose box has no width or no height contains no point strictly. -/
theorem inBox_false_of_flat {p : Polygon} (x : ℚ × ℚ)
    (h : p.xmin.1 = p.xmax.1 ∨ p.xmin.2 = p.xmax.2) : inBox p x = false := by
  apply Bool.eq_false_iff.mpr
  intro hb
  simp only [inBox, Bool.and_eq_true, decide_eq_true_eq] at hb
  obtain ⟨⟨⟨b1, b2⟩, b3⟩, b4⟩ := hb
  rcases h with h | h
  · rw [h] at b1; exact absurd b2 (not_lt.mpr (le_of_lt b1))
  · rw [h] at b3; exact absurd b4 (not_lt.mpr (le_of_lt b3))

/-- When no polygon of the store passes the bounding-box test, the query says
"no polygon" on every tree. -/
theorem query_none_of_no_box (EPS : ℚ) (polysAll : List Polygon) (t : Node) (x0 x : ℚ × ℚ)
    (h : ∀ k, k < polysAll.length → inBox (polysAll.getD k Polygon.none) x = false) :
    insidePolygonTree EPS polysAll t x0 x = (0, -1) := by
  rw [insidePolygonTree_reached]
  rcases leafScan_cases EPS polysAll x0 x (reached t x) with ⟨h0, _⟩ | ⟨_, k, _, _, _, hk, _⟩
  · exact h0
  · have := h k (hit_lt_length hk)
    simp only [hit, this, Bool.false_and] at hk
    exact absurd hk Bool.false_ne_true

/-- With a region of no extent along the split dimension and all the boxes
within the region along it, no polygon goes to either child: the node is built
within fuel `2`. -/
theorem createNode_flat (polys : List Polygon) (minArea : ℚ) (d : Nat) (xmin xmax : ℚ × ℚ)
    (hflat : at2 xmax d ≤ at2 xmin d)
    (hfit : ∀ p ∈ polys, at2 xmin d ≤ at2 p.xmin d ∧ at2 p.xmax d ≤ at2 xmax d) :
    ∃ t, createNode 2 polys minArea d xmin xmax = some t := by
  have hv1 : splitValue d xmin xmax ≤ at2 xmin d := by unfold splitValue; linarith
  have hv2 : at2 xmax d ≤ splitValue d xmin xmax := by unfold splitValue; linarith
  have hl : leftPolys polys d (splitValue d xmin xmax) = [] := by
    unfold leftPolys
    rw [List.filter_eq_nil_iff]
    intro p hp
    have := (hfit p hp).1
    simp only [decide_eq_true_eq, not_lt]
    linarith
  have hr : rightPolys polys d (splitValue d xmin xmax) = [] := by
    unfold rightPolys
    rw [List.filter_eq_nil_iff]
    intro p hp
    have := (hfit p hp).2
    simp only [decide_eq_true_eq, gt_iff_lt, not_lt]
    linarith
  rw [createNode]
  by_cases hc : polys.length = 0 ∨ regionArea xmin xmax < minArea
  · rw [if_pos hc]; exact ⟨_, rfl⟩
  · rw [if_neg hc, hl, hr, createNode_nil, createNode_nil]
    exact ⟨_, rfl⟩

/-- With a region of no height and all the boxes within it vertically, a node
that splits along dimension `0` is built within fuel `3`. -/
theorem createNode_flat_below (polys : List Polygon) (minArea : ℚ) (xmin xmax : ℚ × ℚ)
    (hflat : at2 xmax 1 ≤ at2 xmin 1)
    (hfit : ∀ p ∈ polys, at2 xmin 1 ≤ at2 p.xmin 1 ∧ at2 p.xmax 1 ≤ at2 xmax 1) :
    ∃ t, createNode 3 polys minArea 0 xmin xmax = some t := by
  have hd : childDim 0 = 1 := by decide
  obtain ⟨l, hl⟩ := createNode_flat (leftPolys polys 0 (splitValue 0 xmin xmax)) minArea 1
    xmin (set2 xmax 0 (splitValue 0 xmin xmax)) hflat
    (fun p hp => hfit p (List.mem_of_mem_filter hp))
  obtain ⟨r, hr⟩ := createNode_flat (rightPolys polys 0 (splitValue 0 xmin xmax)) minArea 1
    (set2 xmin 0 (splitValue 0 xmin xmax)) xmax hflat
    (fun p hp => hfit p (List.mem_of_mem_filter hp))
  rw [createNode]
  by_cases hc : polys.length = 0 ∨ regionArea xmin xmax < minArea
  · rw [if_pos hc]; exact ⟨_, rfl⟩
  · rw [if_neg hc, hd, hl, hr]
    exact ⟨_, rfl⟩

end Venice

namespace Venice

/-- The loop that widens the limits only lowers `xmin` and raises `xmax`, and
the result encloses the box of every polygon met. -/
theorem foldl_widen_bounds :
    ∀ (qs : List Polygon) (acc : (ℚ × ℚ) × (ℚ × ℚ)),
      ((qs.foldl widen acc).1.1 ≤ acc.1.1 ∧ (qs.foldl widen acc).1.2 ≤ acc.1.2 ∧
        acc.2.1 ≤ (qs.foldl widen acc).2.1 ∧ acc.2.2 ≤ (qs.foldl widen acc).2.2) ∧
      ∀ q ∈ qs, (qs.foldl widen acc).1.1 ≤ q.xmin.1 ∧ (qs.foldl widen acc).1.2 ≤ q.xmin.2 ∧
        q.xmax.1 ≤ (qs.foldl widen acc).2.1 ∧ q.xmax.2 ≤ (qs.foldl widen acc).2.2 := by
  intro qs
  induction qs with
  | nil =>
    intro acc
    exact ⟨⟨le_refl _, le_refl _, le_refl _, le_refl _⟩,
      fun q hq => absurd hq (List.not_mem_nil q)⟩
  | cons p rest ih =>
    intro acc
    rw [List.foldl_cons]
    obtain ⟨⟨a1, a2, a3, a4⟩, hall⟩ := ih (widen acc p)
    have w1 : (widen acc p).1.1 = min acc.1.1 p.xmin.1 := rfl
    have w2 : (widen acc p).1.2 = min acc.1.2 p.xmin.2 := rfl
    have w3 : (widen acc p).2.1 = max acc.2.1 p.xmax.1 := rfl
    have w4 : (widen acc p).2.2 = max acc.2.2 p.xmax.2 := rfl
    rw [w1] at a1
    rw [w2] at a2
    rw [w3] at a3
    rw [w4] at a4
    refine ⟨⟨le_trans a1 (min_le_left _ _), le_trans a2 (min_le_left _ _),
      le_trans (le_max_left _ _) a3, le_trans (le_max_left _ _) a4⟩, ?_⟩
    intro q hq
    rcases List.mem_cons.mp hq with rfl | hq
    · exact ⟨le_trans a1 (min_le_right _ _), le_trans a2 (min_le_right _ _),
        le_trans (le_max_right _ _) a3, le_trans (le_max_right _ _) a4⟩
    · exact hall q hq

/-- The overall limits enclose the box of every polygon of the store. -/
theorem limits_bounds (ps : List Polygon) (p : Polygon) (hp : p ∈ ps) :
    (limits ps).1.1 ≤ p.xmin.1 ∧ (limits ps).1.2 ≤ p.xmin.2 ∧
      p.xmax.1 ≤ (limits ps).2.1 ∧ p.xmax.2 ≤ (limits ps).2.2 := by
  cases ps with
  | nil => exact absurd hp (List.not_mem_nil p)
  | cons q rest =>
    obtain ⟨hacc, hall⟩ := foldl_widen_bounds rest (q.xmin, q.xmax)
    rcases List.mem_cons.mp hp with rfl | hp
    · exact hacc
    · exact hall p hp

/-- A finished `createNode` at the top gives a finished build. -/
theorem buildTree_of_createNode {fuel : Nat} {ps : List Polygon} {t : Node}
    (h : createNode fuel ps (minAreaOf ps) 0 (limits ps).1 (limits ps).2 = some t) :
    buildTree fuel ps = some ⟨t, ps, (limits ps).1, (limits ps).2⟩ := by
  unfold buildTree
  rw [h]

/-- When the overall limits have no extent along one axis, `createNode` at the
top finishes within fuel `3`. -/
theorem createNode_degenerate (ps : List Polygon) (fuel : Nat) (hf : 3 ≤ fuel)
    (hdeg : (limits ps).2.1 ≤ (limits ps).1.1 ∨ (limits ps).2.2 ≤ (limits ps).1.2) :
    ∃ t, createNode fuel ps (minAreaOf ps) 0 (limits ps).1 (limits ps).2 = some t := by
  rcases hdeg with h | h
  · obtain ⟨t, ht⟩ := createNode_flat ps (minAreaOf ps) 0 (limits ps).1 (limits ps).2 h
      (fun p hp => ⟨(limits_bounds ps p hp).1, (limits_bounds ps p hp).2.2.1⟩)
    exact ⟨t, createNode_mono (by omega) _ _ _ _ _ _ ht⟩
  · obtain ⟨t, ht⟩ := createNode_flat_below ps (minAreaOf ps) (limits ps).1 (limits ps).2 h
      (fun p hp => ⟨(limits_bounds ps p hp).2.1, (limits_bounds ps p hp).2.2.2⟩)
    exact ⟨t, createNode_mono hf _ _ _ _ _ _ ht⟩

/-- The polygon read from a line of six fields. -/
theorem readPolygon_three (i : Nat) (x0 y0 x1 y1 x2 y2 : ℚ) :
    readPolygon i 6 [x0, y0, x1, y1, x2, y2]
      = ⟨3, i, [x0, x1, x2], [y0, y1, y2],
          (min (min (min x0 x0) x1) x2, min (min (min y0 y0) y1) y2),
          (max (max (max x0 x0) x1) x2, max (max (max y0 y0) y1) y2)⟩ := by
  have hr : List.range 3 = [0, 1, 2] := by decide
  have hl : 6 / 2 = 3 := by decide
  unfold readPolygon
  simp only [hl, hr]
  rfl

/-- C6 (counterexample): the vertices `(0,0),(2,1),(4,2)` are collinear, the
store accepts the polygon, but its cached bounding box has area `8`, not `0`,
and with the reference point `(-1,-1)`, separated from the three vertices by
the line `-X - Y = 0`, the query at `(1,1)` returns "contained" (value `1`,
`poly_id` `0`). -/
theorem C6_slanted_collinear_contains :
    collinear3 0 0 2 1 4 2 ∧
    readPolygonFileTree 100 2 [slantLine] = .ok (some slantBuilt) ∧
    boxArea slantP = 8 ∧
    separatedFrom slantP (-1, -1) (-1) (-1) 0 ∧
    insidePolygonTree machineEPS slantBuilt.polysAll slantBuilt.tree (-1, -1) (1, 1)
      = (1, 0) := by
  refine ⟨by unfold collinear3; decide!,
    readPolygonFileTree_eval [slantP] (by rfl) (by decide) (by decide!),
    by decide!, ⟨?_, by decide!⟩, by decide!⟩
  intro j hj
  have hj3 : j < 3 := hj
  interval_cases j <;> decide!

/-- C6 (amended): for every polygon of exactly 3 vertices on one horizontal or
one vertical line, the three vertices are collinear, the store accepts the
polygon, its cached bounding box has area `0`, the build returns a tree, and
`insidePolygonTree` returns "not contained" (value `0`, `poly_id` `-1`) for
every query point, every reference point and every tolerance. -/
theorem C6_axis_parallel_collinear_never_contains (NVERTICES fuel : Nat)
    (x0 y0 x1 y1 x2 y2 EPS : ℚ) (r q : ℚ × ℚ) (hN : 3 ≤ NVERTICES) (hf : 3 ≤ fuel)
    (hline : (y0 = y1 ∧ y1 = y2) ∨ (x0 = x1 ∧ x1 = x2)) :
    collinear3 x0 y0 x1 y1 x2 y2 ∧
    ∃ b, readPolygonFileTree NVERTICES fuel [Line.fields [x0, y0, x1, y1, x2, y2]] = .ok (some b) ∧
      b.polysAll = [readPolygon 0 6 [x0, y0, x1, y1, x2, y2]] ∧
      boxArea (readPolygon 0 6 [x0, y0, x1, y1, x2, y2]) = 0 ∧
      insidePolygonTree EPS b.polysAll b.tree r q = (0, -1) := by
  have hcol : collinear3 x0 y0 x1 y1 x2 y2 := by
    unfold collinear3
    rcases hline with ⟨h1, h2⟩ | ⟨h1, h2⟩
    · rw [← h2, ← h1]; ring
    · rw [← h2, ← h1]; ring
  have hflat : (readPolygon 0 6 [x0, y0, x1, y1, x2, y2]).xmin.1
        = (readPolygon 0 6 [x0, y0, x1, y1, x2, y2]).xmax.1 ∨
      (readPolygon 0 6 [x0, y0, x1, y1, x2, y2]).xmin.2
        = (readPolygon 0 6 [x0, y0, x1, y1, x2, y2]).xmax.2 := by
    rw [readPolygon_three]
    rcases hline with ⟨h1, h2⟩ | ⟨h1, h2⟩
    · right; subst h1; subst h2; simp
    · left; subst h1; subst h2; simp
  have harea : boxArea (readPolygon 0 6 [x0, y0, x1, y1, x2, y2]) = 0 := by
    unfold boxArea
    rcases hflat with h | h
    · rw [h]; ring
    · rw [h]; ring
  have hnot : ¬ (3 > NVERTICES) := by omega
  have h1 : readPolygons NVERTICES [Line.fields [x0, y0, x1, y1, x2, y2]]
      = .ok [readPolygon 0 6 [x0, y0, x1, y1, x2, y2]] := by
    have hg : getStrings (Line.fields [x0, y0, x1, y1, x2, y2]) ([], 0)
        = ([x0, y0, x1, y1, x2, y2], 6) := by simp [getStrings]
    have hl : 6 / 2 = 3 := by decide
    simp only [readPolygons, readLines, hg, hl, hnot, if_false]
    rfl
  have hlim : limits [readPolygon 0 6 [x0, y0, x1, y1, x2, y2]]
      = ((readPolygon 0 6 [x0, y0, x1, y1, x2, y2]).xmin,
         (readPolygon 0 6 [x0, y0, x1, y1, x2, y2]).xmax) := rfl
  obtain ⟨t, ht⟩ := createNode_degenerate [readPolygon 0 6 [x0, y0, x1, y1, x2, y2]] fuel hf
    (by
      rw [hlim]
      rcases hflat with h | h
      · left; exact le_of_eq h.symm
      · right; exact le_of_eq h.symm)
  refine ⟨hcol, _, readPolygonFileTree_ok h1 (buildTree_of_createNode ht), rfl, harea, ?_⟩
  apply query_none_of_no_box
  intro k hk
  have hk0 : k = 0 := by
    have : k < 1 := hk
    omega
  subst hk0
  exact inBox_false_of_flat q hflat

/-- C6 (amended) at the vertices `(0,0),(1,0),(2,0)`, `NVERTICES = 100`, fuel
`3`, the machine tolerance, reference point `(-1,-1)` and query point `(1,0)`. -/
theorem C6_axis_parallel_witness :
    (3 ≤ 100 ∧ 3 ≤ 3 ∧ (((0 : ℚ) = 0 ∧ (0 : ℚ) = 0) ∨ ((0 : ℚ) = 1 ∧ (1 : ℚ) = 2))) ∧
    (collinear3 0 0 1 0 2 0 ∧
    ∃ b, readPolygonFileTree 100 3 [Line.fields [0, 0, 1, 0, 2, 0]] = .ok (some b) ∧
      b.polysAll = [readPolygon 0 6 [0, 0, 1, 0, 2, 0]] ∧
      boxArea (readPolygon 0 6 [0, 0, 1, 0, 2, 0]) = 0 ∧
      insidePolygonTree machineEPS b.polysAll b.tree (-1, -1) (1, 0) = (0, -1)) :=
  ⟨⟨by decide, by decide, Or.inl ⟨rfl, rfl⟩⟩,
    C6_axis_parallel_collinear_never_contains 100 3 0 0 1 0 2 0 machineEPS (-1, -1) (1, 0)
      (by decide) (by decide) (Or.inl ⟨rfl, rfl⟩)⟩

/-- C10 (counterexample): for the polygon `(0,0),(1,0),(2,0)` the region of the
build is `[0,2] x [0,0]`, with `regionMin ≥ regionMax` on axis `1`, and the
construction does not fail: it returns the tree of `flatBuilt`. -/
theorem C10_degenerate_region_returns_tree :
    readPolygonFileTree 100 3 [flatLine] = .ok (some flatBuilt) ∧
    at2 flatBuilt.xmin 1 ≥ at2 flatBuilt.xmax 1 :=
  ⟨readPolygonFileTree_eval [flatP] (by rfl) (by decide) (by decide!), by decide!⟩

/-- C10 (amended): for every store that was read and whose overall region has
`regionMin ≥ regionMax` on some axis, the construction does not fail (the code
has no region check): with fuel `3` or more `readPolygonFileTree` returns a
tree over that region. -/
theorem C10_degenerate_region_builds (NVERTICES fuel : Nat) (lines : List Line)
    (ps : List Polygon) (hr : readPolygons NVERTICES lines = .ok ps) (hf : 3 ≤ fuel)
    (hdeg : at2 (limits ps).1 0 ≥ at2 (limits ps).2 0 ∨
      at2 (limits ps).1 1 ≥ at2 (limits ps).2 1) :
    ∃ b, readPolygonFileTree NVERTICES fuel lines = .ok (some b) ∧
      b.polysAll = ps ∧ b.xmin = (limits ps).1 ∧ b.xmax = (limits ps).2 := by
  obtain ⟨t, ht⟩ := createNode_degenerate ps fuel hf hdeg
  exact ⟨_, readPolygonFileTree_ok hr (buildTree_of_createNode ht), rfl, rfl, rfl⟩

/-- C10 (amended) at the polygon `(0,0),(1,0),(2,0)`, `NVERTICES = 100` and
fuel `3`. -/
theorem C10_degenerate_region_witness :
    (readPolygons 100 [flatLine] = .ok [flatP] ∧ 3 ≤ 3 ∧
      (at2 (limits [flatP]).1 0 ≥ at2 (limits [flatP]).2 0 ∨
        at2 (limits [flatP]).1 1 ≥ at2 (limits [flatP]).2 1)) ∧
    ∃ b, readPolygonFileTree 100 3 [flatLine] = .ok (some b) ∧
      b.polysAll = [flatP] ∧ b.xmin = (limits [flatP]).1 ∧ b.xmax = (limits [flatP]).2 :=
  ⟨⟨by rfl, by decide, Or.inr (by decide!)⟩,
    C10_degenerate_region_builds 100 3 [flatLine] [flatP] (by rfl) (by decide)
      (Or.inr (by decide!))⟩

end Venice

namespace Venice

/-! ## Termination of the build -/

/-- With the two degenerate polygons `flatP` and `uprightP`, threshold `0` and
a region `[0,a] x [0,b]` of positive width and height, the left child gets both
polygons and a region of the same kind: no fuel is enough. -/
theorem createNode_degenerate_pair_none (fuel : Nat) :
    ∀ (d : Nat) (a b : ℚ), 0 < a → 0 < b →
      createNode fuel [flatP, uprightP] 0 d (0, 0) (a, b) = none := by
  induction fuel with
  | zero => intro _ _ _ _ _; rfl
  | succ n ih =>
    intro d a b ha hb
    have hc : ¬ ([flatP, uprightP].length = 0 ∨ regionArea (0, 0) (a, b) < 0) := by
      have : 0 < regionArea (0, 0) (a, b) := by
        simp only [regionArea, sub_zero]
        exact mul_pos ha hb
      intro h
      rcases h with h | h
      · exact absurd h (by decide)
      · exact absurd h (not_lt.mpr (le_of_lt this))
    rw [createNode, if_neg hc]
    by_cases hd : d = 0
    · have hv : splitValue d (0, 0) (a, b) = a / 2 := by
        simp [splitValue, at2, hd]
      have hl : leftPolys [flatP, uprightP] d (a / 2) = [flatP, uprightP] := by
        have : (0 : ℚ) < a / 2 := by linarith
        simp [leftPolys, at2, hd, flatP, uprightP, this]
      have hs : set2 (a, b) d (a / 2) = (a / 2, b) := by simp [set2, hd]
      rw [hv, hl, hs, ih _ _ _ (by linarith) hb]
    · have hv : splitValue d (0, 0) (a, b) = b / 2 := by
        simp [splitValue, at2, hd]
      have hl : leftPolys [flatP, uprightP] d (b / 2) = [flatP, uprightP] := by
        have : (0 : ℚ) < b / 2 := by linarith
        simp [leftPolys, at2, hd, flatP, uprightP, this]
      have hs : set2 (a, b) d (b / 2) = (a, b / 2) := by simp [set2, hd]
      rw [hv, hl, hs, ih _ _ _ ha (by linarith)]

/-- C7 (evaluation at the failing input): the store read from
`polygon(0,0,1,0,2,0)` and `polygon(0,0,0,1,0,2)` is accepted, its `minArea` is
`0`, not positive, and the recursion of `createNode` from its overall bounding
box `[0,2] x [0,2]` finishes within no fuel: `readPolygonFileTree` never returns
a tree. -/
theorem C7_zero_minArea_never_terminates :
    readPolygons 100 [flatLine, uprightLine] = .ok [flatP, uprightP] ∧
    minAreaOf [flatP, uprightP] = 0 ∧
    limits [flatP, uprightP] = ((0, 0), (2, 2)) ∧
    ∀ fuel, readPolygonFileTree 100 fuel [flatLine, uprightLine] = .ok none := by
  have h1 : readPolygons 100 [flatLine, uprightLine] = .ok [flatP, uprightP] := by rfl
  have hm : minAreaOf [flatP, uprightP] = 0 := by decide!
  have hl : limits [flatP, uprightP] = ((0, 0), (2, 2)) := by decide!
  refine ⟨h1, hm, hl, ?_⟩
  intro fuel
  unfold readPolygonFileTree
  rw [h1]
  simp only [buildTree, hm, hl]
  rw [createNode_degenerate_pair_none fuel 0 2 2 (by norm_num) (by norm_num)]

/-- Each split halves the area of the region: the left child. -/
theorem regionArea_left (d : Nat) (xmin xmax : ℚ × ℚ) :
    regionArea xmin (set2 xmax d (splitValue d xmin xmax)) = regionArea xmin xmax / 2 := by
  by_cases hd : d = 0
  · simp only [regionArea, set2, splitValue, at2, hd, if_true]; ring
  · simp only [regionArea, set2, splitValue, at2, hd, if_false]; ring

/-- Each split halves the area of the region: the right child. -/
theorem regionArea_right (d : Nat) (xmin xmax : ℚ × ℚ) :
    regionArea (set2 xmin d (splitValue d xmin xmax)) xmax = regionArea xmin xmax / 2 := by
  by_cases hd : d = 0
  · simp only [regionArea, set2, splitValue, at2, hd, if_true]; ring
  · simp only [regionArea, set2, splitValue, at2, hd, if_false]; ring

/-- A region whose area is below `minArea * 2^k` is built within fuel `k+1`. -/
theorem createNode_terminates_within (k : Nat) :
    ∀ (polys : List Polygon) (minArea : ℚ) (d : Nat) (xmin xmax : ℚ × ℚ),
      regionArea xmin xmax < minArea * 2 ^ k →
      ∃ t, createNode (k + 1) polys minArea d xmin xmax = some t := by
  induction k with
  | zero =>
    intro polys minArea d xmin xmax h
    rw [pow_zero, mul_one] at h
    rw [createNode, if_pos (Or.inr h)]
    exact ⟨_, rfl⟩
  | succ n ih =>
    intro polys minArea d xmin xmax h
    have h2 : regionArea xmin xmax / 2 < minArea * 2 ^ n := by
      rw [pow_succ] at h
      linarith
    obtain ⟨l, hl⟩ := ih (leftPolys polys d (splitValue d xmin xmax)) minArea (childDim d)
      xmin (set2 xmax d (splitValue d xmin xmax)) (by rw [regionArea_left]; exact h2)
    obtain ⟨r, hr⟩ := ih (rightPolys polys d (splitValue d xmin xmax)) minArea (childDim d)
      (set2 xmin d (splitValue d xmin xmax)) xmax (by rw [regionArea_right]; exact h2)
    rw [createNode]
    by_cases hc : polys.length = 0 ∨ regionArea xmin xmax < minArea
    · rw [if_pos hc]; exact ⟨_, rfl⟩
    · rw [if_neg hc, hl, hr]; exact ⟨_, rfl⟩

/-- With a positive `minArea` the build of a store that was read terminates:
some fuel is enough, and the result is the same for every larger fuel. -/
theorem build_terminates_of_pos_minArea (NVERTICES : Nat) (lines : List Line)
    (ps : List Polygon) (hr : readPolygons NVERTICES lines = .ok ps)
    (hpos : 0 < minAreaOf ps) :
    ∃ fuel b, ∀ g, fuel ≤ g → readPolygonFileTree NVERTICES g lines = .ok (some b) := by
  obtain ⟨k, hk⟩ := exists_nat_gt (regionArea (limits ps).1 (limits ps).2 / minAreaOf ps)
  have h2 : (k : ℚ) < 2 ^ k := by exact_mod_cast Nat.lt_two_pow k
  have h3 : regionArea (limits ps).1 (limits ps).2 < minAreaOf ps * 2 ^ k := by
    have := (div_lt_iff₀ hpos).mp (lt_trans hk h2)
    linarith
  obtain ⟨t, ht⟩ := createNode_terminates_within k ps (minAreaOf ps) 0 _ _ h3
  refine ⟨k + 1, ⟨t, ps, (limits ps).1, (limits ps).2⟩, ?_⟩
  intro g hg
  exact readPolygonFileTree_ok hr (buildTree_of_createNode (createNode_mono hg _ _ _ _ _ _ ht))

/-- The termination of the build at the square, whose `minArea` is `16`. -/
theorem build_terminates_witness :
    (readPolygons 100 [squareLine] = .ok [squareP] ∧ 0 < minAreaOf [squareP]) ∧
    ∃ fuel b, ∀ g, fuel ≤ g → readPolygonFileTree 100 g [squareLine] = .ok (some b) :=
  ⟨⟨by rfl, by decide!⟩,
    build_terminates_of_pos_minArea 100 [squareLine] [squareP] (by rfl) (by decide!)⟩

/-! ## The reference point of the callers -/

/-- C8 (evaluation at the failing input): with the options `-xmin 2 -ymin 2`
and the square `(0,0),(4,0),(4,4),(0,4)`, each of `mask2d`, `flagCat` and
`randomCat` passes the reference point `(1,1)`; it is strictly inside the
bounding box of the square (the square itself), not below and left of it, and
with it the query at `(3,3)`, a point of the square, returns "outside", while
with the default limits it returns polygon `0`. -/
theorem C8_user_limits_move_reference_inside :
    readPolygonFileTree 100 2 [squareLine] = .ok (some squareBuilt) ∧
    mask2d_x0 innerLimits squareBuilt = (1, 1) ∧
    flagCat_x0 innerLimits squareBuilt = (1, 1) ∧
    randomCat_x0 innerLimits squareBuilt = (1, 1) ∧
    inBox squareP (1, 1) = true ∧
    ¬ belowLeft (1, 1) squareP ∧
    insidePolygonTree machineEPS squareBuilt.polysAll squareBuilt.tree
      (mask2d_x0 innerLimits squareBuilt) (3, 3) = (0, -1) ∧
    insidePolygonTree machineEPS squareBuilt.polysAll squareBuilt.tree
      (mask2d_x0 Config.default squareBuilt) (3, 3) = (1, 0) :=
  ⟨readPolygonFileTree_square 100 2 (by decide) (by decide), by decide!, by decide!,
    by decide!, by decide!, by unfold belowLeft; decide!, by decide!, by decide!⟩

/-- Without the options `-xmin` and `-ymin`, the reference point of each
caller is strictly below and left of the bounding box of every polygon of the
store. -/
theorem default_reference_below_left (NVERTICES fuel : Nat) (lines : List Line)
    (b : Built) (para : Config) (p : Polygon)
    (hb : readPolygonFileTree NVERTICES fuel lines = .ok (some b))
    (hmin : para.minDefinied = (false, false)) (hp : p ∈ b.polysAll) :
    belowLeft (mask2d_x0 para b) p ∧ belowLeft (flagCat_x0 para b) p ∧
      belowLeft (randomCat_x0 para b) p := by
  obtain ⟨ps, _, h2⟩ := readPolygonFileTree_inv hb
  obtain ⟨_, hps, hxmin, _⟩ := buildTree_inv h2
  rw [hps] at hp
  obtain ⟨l1, l2, _, _⟩ := limits_bounds ps p hp
  have key : belowLeft (b.xmin.1 - 1, b.xmin.2 - 1) p := by
    rw [hxmin]
    constructor
    · show (limits ps).1.1 - 1 < p.xmin.1
      linarith
    · show (limits ps).1.2 - 1 < p.xmin.2
      linarith
  have hx : mask2d_x0 para b = (b.xmin.1 - 1, b.xmin.2 - 1) := by
    simp [mask2d_x0, defineLimits, hmin]
  have hy : flagCat_x0 para b = (b.xmin.1 - 1, b.xmin.2 - 1) := by
    simp [flagCat_x0, defineLimits, hmin]
  have hz : randomCat_x0 para b = (b.xmin.1 - 1, b.xmin.2 - 1) := by
    simp [randomCat_x0, defineLimits, hmin]
  rw [hx, hy, hz]
  exact ⟨key, key, key⟩

/-- The default reference point at the square: `(-1,-1)`. -/
theorem default_reference_witness :
    (readPolygonFileTree 100 2 [squareLine] = .ok (some squareBuilt) ∧
      Config.default.minDefinied = (false, false) ∧ squareP ∈ squareBuilt.polysAll) ∧
    (belowLeft (mask2d_x0 Config.default squareBuilt) squareP ∧
      belowLeft (flagCat_x0 Config.default squareBuilt) squareP ∧
      belowLeft (randomCat_x0 Config.default squareBuilt) squareP) :=
  ⟨⟨readPolygonFileTree_square 100 2 (by decide) (by decide), rfl, by decide⟩,
    default_reference_below_left 100 2 [squareLine] squareBuilt Config.default squareP
      (readPolygonFileTree_square 100 2 (by decide) (by decide)) rfl (by decide)⟩

end Venice

namespace Venice

/-! ## Errors of the store construction -/

/-- When the count left by the previous line passed the test of the maximum,
the count after `getStrings` fails it exactly when the line has more than
`2 * NVERTICES + 1` fields, and is then the number of fields. -/
theorem getStrings_over (NVERTICES : Nat) (item : Line) (st : List ℚ × Nat)
    (hst : st.2 / 2 ≤ NVERTICES) :
    ((getStrings item st).2 / 2 > NVERTICES ↔ item.length / 2 > NVERTICES) ∧
      (item.length / 2 > NVERTICES → (getStrings item st).2 = item.length) := by
  cases item with
  | skipped =>
    constructor
    · constructor
      · intro h1
        have h2 : st.2 / 2 > NVERTICES := h1
        omega
      · intro h1
        have h2 : 0 / 2 > NVERTICES := h1
        simp at h2
    · intro h1
      have h2 : 0 / 2 > NVERTICES := h1
      simp at h2
  | fields vals => exact ⟨Iff.rfl, fun _ => rfl⟩

/-- The reading loop succeeds when no polygon has too many vertices. -/
theorem readLines_ok (NVERTICES : Nat) :
    ∀ (lines : List Line) (i : Nat) (st : List ℚ × Nat), st.2 / 2 ≤ NVERTICES →
      (∀ l ∈ lines, l.length / 2 ≤ NVERTICES) →
      ∃ ps, readLines NVERTICES i st lines = .ok ps := by
  intro lines
  induction lines with
  | nil => intro i st _ _; exact ⟨[], rfl⟩
  | cons item rest ih =>
    intro i st hst h
    have hc : ¬ (getStrings item st).2 / 2 > NVERTICES := by
      rw [(getStrings_over NVERTICES item st hst).1]
      exact not_lt.mpr (h item (List.mem_cons_self _ _))
    obtain ⟨qs, hq⟩ := ih (i + 1) (getStrings item st) (not_lt.mp hc)
      (fun l hl => h l (List.mem_cons_of_mem _ hl))
    rw [readLines, if_neg hc, hq]
    exact ⟨_, rfl⟩

/-- The reading loop stops at the first polygon with too many vertices and
reports its number and its vertex count. -/
theorem readLines_error (NVERTICES : Nat) :
    ∀ (lines : List Line) (i : Nat) (st : List ℚ × Nat) (k : Nat),
      st.2 / 2 ≤ NVERTICES → k < lines.length →
      (∀ j, j < k → (lines.getD j Line.skipped).length / 2 ≤ NVERTICES) →
      NVERTICES < (lines.getD k Line.skipped).length / 2 →
      readLines NVERTICES i st lines
        = .error (.TooManyVertices (i + k) ((lines.getD k Line.skipped).length / 2)) := by
  intro lines
  induction lines with
  | nil => intro i st k _ hk; exact absurd hk (Nat.not_lt_zero k)
  | cons item rest ih =>
    intro i st k hst hk hbefore hbad
    cases k with
    | zero =>
      have hbad' : item.length / 2 > NVERTICES := hbad
      have hc : (getStrings item st).2 / 2 > NVERTICES :=
        (getStrings_over NVERTICES item st hst).1.mpr hbad'
      rw [readLines, if_pos hc, (getStrings_over NVERTICES item st hst).2 hbad']
      rfl
    | succ k =>
      have hc : ¬ (getStrings item st).2 / 2 > NVERTICES := by
        rw [(getStrings_over NVERTICES item st hst).1]
        exact not_lt.mpr (hbefore 0 (Nat.succ_pos k))
      have hk' : k < rest.length := Nat.lt_of_succ_lt_succ hk
      have := ih (i + 1) (getStrings item st) k (not_lt.mp hc) hk'
        (fun j hj => by
          have := hbefore (j + 1) (Nat.succ_lt_succ hj)
          simpa only [List.getD_cons_succ] using this)
        (by simpa only [List.getD_cons_succ] using hbad)
      rw [readLines, if_neg hc, this]
      simp only [List.getD_cons_succ]
      have he : i + 1 + k = i + (k + 1) := by omega
      rw [he]

/-- The reading loop fails as soon as some polygon has too many vertices. -/
theorem readLines_fails (NVERTICES : Nat) :
    ∀ (lines : List Line) (i : Nat) (st : List ℚ × Nat), st.2 / 2 ≤ NVERTICES →
      (∃ l ∈ lines, NVERTICES < l.length / 2) →
      ∃ e, readLines NVERTICES i st lines = .error e := by
  intro lines
  induction lines with
  | nil => intro i st _ h; obtain ⟨l, hl, _⟩ := h; exact absurd hl (List.not_mem_nil l)
  | cons item rest ih =>
    intro i st hst h
    by_cases hc : (getStrings item st).2 / 2 > NVERTICES
    · rw [readLines, if_pos hc]; exact ⟨_, rfl⟩
    · obtain ⟨l, hl, hbad⟩ := h
      rcases List.mem_cons.mp hl with rfl | hl
      · exact absurd ((getStrings_over NVERTICES l st hst).1.mpr hbad) hc
      · obtain ⟨e, he⟩ := ih (i + 1) (getStrings item st) (not_lt.mp hc) ⟨l, hl, hbad⟩
        rw [readLines, if_neg hc, he]
        exact ⟨_, rfl⟩

/-- C9: the store construction fails with `EmptyInput` when no polygon is
supplied, and with `TooManyVertices i n` when polygon `i` is the first with
more than `NVERTICES` vertices, `n` being its vertex count; it succeeds, with
one polygon per line, when there is at least one polygon and none has more than
`NVERTICES` vertices (exactly `NVERTICES` is accepted); so it fails exactly when
the input is empty or some polygon has more than `NVERTICES` vertices. -/
theorem C9_store_construction_errors (NVERTICES : Nat) (lines : List Line) :
    readPolygons NVERTICES [] = .error .EmptyInput ∧
    (∀ i, i < lines.length →
      (∀ j, j < i → (lines.getD j Line.skipped).length / 2 ≤ NVERTICES) →
      NVERTICES < (lines.getD i Line.skipped).length / 2 →
      readPolygons NVERTICES lines
        = .error (.TooManyVertices i ((lines.getD i Line.skipped).length / 2))) ∧
    (lines ≠ [] → (∀ l ∈ lines, l.length / 2 ≤ NVERTICES) →
      ∃ ps, readPolygons NVERTICES lines = .ok ps ∧ ps.length = lines.length) ∧
    ((∃ e, readPolygons NVERTICES lines = .error e) ↔
      (lines = [] ∨ ∃ l ∈ lines, NVERTICES < l.length / 2)) := by
  have hok : lines ≠ [] → (∀ l ∈ lines, l.length / 2 ≤ NVERTICES) →
      ∃ ps, readPolygons NVERTICES lines = .ok ps ∧ ps.length = lines.length := by
    intro hne hall
    obtain ⟨ps, hps⟩ := readLines_ok NVERTICES lines 0 ([], 0) (Nat.zero_le _) hall
    have hlen := readLines_length NVERTICES lines 0 _ ps hps
    have h0 : ¬ ps.length = 0 := by
      rw [hlen]
      exact fun h => hne (List.length_eq_zero.mp h)
    refine ⟨ps, ?_, hlen⟩
    unfold readPolygons
    rw [hps]
    simp only [h0, if_false]
  refine ⟨rfl, ?_, hok, ?_⟩
  · intro i hi hbefore hbad
    have := readLines_error NVERTICES lines 0 ([], 0) i (Nat.zero_le _) hi hbefore hbad
    unfold readPolygons
    rw [this, Nat.zero_add]
  · constructor
    · rintro ⟨e, he⟩
      by_contra hcon
      rw [not_or] at hcon
      obtain ⟨hne, hnone⟩ := hcon
      have hall : ∀ l ∈ lines, l.length / 2 ≤ NVERTICES := by
        intro l hl
        by_contra hl2
        exact hnone ⟨l, hl, not_le.mp hl2⟩
      obtain ⟨ps, hps, _⟩ := hok hne hall
      rw [hps] at he
      exact absurd he (by simp)
    · rintro (rfl | hbad)
      · exact ⟨_, rfl⟩
      · obtain ⟨e, he⟩ := readLines_fails NVERTICES lines 0 ([], 0) (Nat.zero_le _) hbad
        refine ⟨e, ?_⟩
        unfold readPolygons
        rw [he]

/-- C9 at `NVERTICES = 3`: after a triangle, the square, with `4` vertices, is
the first polygon to exceed the maximum and is reported as polygon `1` with
count `4`; at `NVERTICES = 4` the square alone is accepted. -/
theorem C9_store_construction_witness :
    readPolygons 3 [triangleLine, squareLine] = .error (.TooManyVertices 1 4) ∧
    ∃ ps, readPolygons 4 [squareLine] = .ok ps ∧ ps.length = 1 :=
  ⟨(C9_store_construction_errors 3 [triangleLine, squareLine]).2.1 1 (by decide)
      (by
        intro j hj
        have hj0 : j = 0 := by omega
        subst hj0
        decide)
      (by decide),
    (C9_store_construction_errors 4 [squareLine]).2.2.1 (by decide)
      (by
        intro l hl
        have : l = squareLine := by simpa using hl
        subst this
        decide)⟩

end Venice

namespace Venice

/-! ## The cached bounding box -/

/-- The running minimum is below its start, below every value met, and is one
of them. -/
theorem foldl_min_spec :
    ∀ (xs : List ℚ) (a : ℚ),
      xs.foldl min a ≤ a ∧ (∀ v ∈ xs, xs.foldl min a ≤ v) ∧
        (xs.foldl min a = a ∨ xs.foldl min a ∈ xs) := by
  intro xs
  induction xs with
  | nil =>
    intro a
    exact ⟨le_refl _, fun v hv => absurd hv (List.not_mem_nil v), Or.inl rfl⟩
  | cons b rest ih =>
    intro a
    rw [List.foldl_cons]
    obtain ⟨h1, h2, h3⟩ := ih (min a b)
    refine ⟨le_trans h1 (min_le_left _ _), ?_, ?_⟩
    · intro v hv
      rcases List.mem_cons.mp hv with rfl | hv
      · exact le_trans h1 (min_le_right _ _)
      · exact h2 v hv
    · rcases h3 with h | h
      · rcases min_choice a b with hm | hm
        · left; rw [h, hm]
        · right; rw [h, hm]; exact List.mem_cons_self _ _
      · right; exact List.mem_cons_of_mem _ h

/-- The running maximum is above its start, above every value met, and is one
of them. -/
theorem foldl_max_spec :
    ∀ (xs : List ℚ) (a : ℚ),
      a ≤ xs.foldl max a ∧ (∀ v ∈ xs, v ≤ xs.foldl max a) ∧
        (xs.foldl max a = a ∨ xs.foldl max a ∈ xs) := by
  intro xs
  induction xs with
  | nil =>
    intro a
    exact ⟨le_refl _, fun v hv => absurd hv (List.not_mem_nil v), Or.inl rfl⟩
  | cons b rest ih =>
    intro a
    rw [List.foldl_cons]
    obtain ⟨h1, h2, h3⟩ := ih (max a b)
    refine ⟨le_trans (le_max_left _ _) h1, ?_, ?_⟩
    · intro v hv
      rcases List.mem_cons.mp hv with rfl | hv
      · exact le_trans (le_max_right _ _) h1
      · exact h2 v hv
    · rcases h3 with h | h
      · rcases max_choice a b with hm | hm
        · left; rw [h, hm]
        · right; rw [h, hm]; exact List.mem_cons_self _ _
      · right; exact List.mem_cons_of_mem _ h

/-- Entry `j` of a list built over `0, ..., N-1`. -/
theorem getD_map_range (f : Nat → ℚ) (N j : Nat) (hj : j < N) :
    ((List.range N).map f).getD j 0 = f j := by
  simp [List.getD_eq_getElem?_getD, hj]

/-- A member of a list built over `0, ..., N-1` is one of its entries. -/
theorem mem_map_range (f : Nat → ℚ) (N : Nat) (v : ℚ) (hv : v ∈ (List.range N).map f) :
    ∃ j, j < N ∧ ((List.range N).map f).getD j 0 = v := by
  obtain ⟨j, hj, rfl⟩ := List.mem_map.mp hv
  have hj' : j < N := List.mem_range.mp hj
  exact ⟨j, hj', getD_map_range f N j hj'⟩

/-- The box cached by `readPolygon` is not inverted. -/
theorem readPolygon_box_valid (i N : Nat) (item : List ℚ) :
    (readPolygon i N item).xmin.1 ≤ (readPolygon i N item).xmax.1 ∧
      (readPolygon i N item).xmin.2 ≤ (readPolygon i N item).xmax.2 := by
  simp only [readPolygon]
  exact ⟨le_trans (foldl_min_spec _ _).1 (foldl_max_spec _ _).1,
    le_trans (foldl_min_spec _ _).1 (foldl_max_spec _ _).1⟩

/-- The polygon stored from the buffer `item` and the count `N`: its vertices
are the first `N/2` pairs of the buffer, its box bounds every vertex and, when
there is a vertex, each side of the box is attained by a vertex. -/
theorem readPolygon_box (i N : Nat) (item : List ℚ) :
    (readPolygon i N item).id = i ∧
    (readPolygon i N item).N = N / 2 ∧
    (∀ j, j < (readPolygon i N item).N →
      (readPolygon i N item).x.getD j 0 = item.getD (2 * j) 0 ∧
      (readPolygon i N item).y.getD j 0 = item.getD (2 * j + 1) 0) ∧
    boxBounds (readPolygon i N item) ∧
    (0 < (readPolygon i N item).N → boxAttained (readPolygon i N item)) := by
  refine ⟨rfl, rfl, ?_, ?_, ?_⟩
  · simp only [readPolygon]
    intro j hj
    exact ⟨getD_map_range _ _ j hj, getD_map_range _ _ j hj⟩
  · unfold boxBounds
    simp only [readPolygon]
    intro j hj
    have hx : ((List.range (N / 2)).map (fun j => item.getD (2 * j) 0)).getD j 0
        ∈ (List.range (N / 2)).map (fun j => item.getD (2 * j) 0) := by
      rw [getD_map_range _ _ j hj]
      exact List.mem_map.mpr ⟨j, List.mem_range.mpr hj, rfl⟩
    have hy : ((List.range (N / 2)).map (fun j => item.getD (2 * j + 1) 0)).getD j 0
        ∈ (List.range (N / 2)).map (fun j => item.getD (2 * j + 1) 0) := by
      rw [getD_map_range _ _ j hj]
      exact List.mem_map.mpr ⟨j, List.mem_range.mpr hj, rfl⟩
    exact ⟨(foldl_min_spec _ _).2.1 _ hx, (foldl_max_spec _ _).2.1 _ hx,
      (foldl_min_spec _ _).2.1 _ hy, (foldl_max_spec _ _).2.1 _ hy⟩
  · unfold boxAttained
    simp only [readPolygon]
    intro hN
    have h0x : ((List.range (N / 2)).map (fun j => item.getD (2 * j) 0)).getD 0 0
        = item.getD 0 0 := getD_map_range _ _ 0 hN
    have h0y : ((List.range (N / 2)).map (fun j => item.getD (2 * j + 1) 0)).getD 0 0
        = item.getD 1 0 := getD_map_range _ _ 0 hN
    refine ⟨?_, ?_, ?_, ?_⟩
    · rcases (foldl_min_spec ((List.range (N / 2)).map
          (fun j => item.getD (2 * j) 0)) (item.getD 0 0)).2.2 with h | h
      · exact ⟨0, hN, by rw [h, h0x]⟩
      · obtain ⟨j, hj, hv⟩ := mem_map_range _ _ _ h
        exact ⟨j, hj, hv⟩
    · rcases (foldl_max_spec ((List.range (N / 2)).map
          (fun j => item.getD (2 * j) 0)) (item.getD 0 0)).2.2 with h | h
      · exact ⟨0, hN, by rw [h, h0x]⟩
      · obtain ⟨j, hj, hv⟩ := mem_map_range _ _ _ h
        exact ⟨j, hj, hv⟩
    · rcases (foldl_min_spec ((List.range (N / 2)).map
          (fun j => item.getD (2 * j + 1) 0)) (item.getD 1 0)).2.2 with h | h
      · exact ⟨0, hN, by rw [h, h0y]⟩
      · obtain ⟨j, hj, hv⟩ := mem_map_range _ _ _ h
        exact ⟨j, hj, hv⟩
    · rcases (foldl_max_spec ((List.range (N / 2)).map
          (fun j => item.getD (2 * j + 1) 0)) (item.getD 1 0)).2.2 with h | h
      · exact ⟨0, hN, by rw [h, h0y]⟩
      · obtain ⟨j, hj, hv⟩ := mem_map_range _ _ _ h
        exact ⟨j, hj, hv⟩

/-- Entry `j` of a buffer that starts with the fields `vals`, for `j` among
them. -/
theorem getD_append_fields (vals rest : List ℚ) (j : Nat) (hj : j < vals.length) :
    (vals ++ rest).getD j 0 = vals.getD j 0 := by
  simp [List.getD_eq_getElem?_getD, List.getElem?_append_left hj]

/-- The polygon stored for a skipped line that follows another line is the
polygon stored for that line, under the next number. -/
theorem readLines_skipped (NVERTICES : Nat) :
    ∀ (lines : List Line) (i : Nat) (st : List ℚ × Nat) (ps : List Polygon),
      readLines NVERTICES i st lines = .ok ps →
      ∀ k, k + 1 < ps.length → lines.getD (k + 1) Line.skipped = Line.skipped →
        ps.getD (k + 1) Polygon.none = { ps.getD k Polygon.none with id := i + (k + 1) } := by
  intro lines
  induction lines with
  | nil => intro i st ps h k hk; simp [readLines] at h; subst h; simp at hk
  | cons item rest ih =>
    intro i st ps h k hk hsk
    rw [readLines] at h
    by_cases hc : (getStrings item st).2 / 2 > NVERTICES
    · rw [if_pos hc] at h; exact absurd h (by simp)
    · rw [if_neg hc] at h
      revert h
      cases hr : readLines NVERTICES (i + 1) (getStrings item st) rest with
      | error e => intro h; exact absurd h (by simp)
      | ok qs =>
        intro h
        have := Except.ok.inj h
        subst this
        cases k with
        | zero =>
          cases rest with
          | nil => simp [readLines] at hr; subst hr; simp at hk
          | cons l2 rest2 =>
            have hl2 : l2 = Line.skipped := hsk
            subst hl2
            rw [readLines] at hr
            have hg : getStrings Line.skipped (getStrings item st) = getStrings item st := rfl
            rw [hg] at hr
            rw [if_neg hc] at hr
            revert hr
            cases hr2 : readLines NVERTICES (i + 1 + 1) (getStrings item st) rest2 with
            | error e => intro hr; exact absurd hr (by simp)
            | ok rs =>
              intro hr
              have := Except.ok.inj hr
              subst this
              rfl
        | succ k =>
          have hk' : k + 1 < qs.length := by simpa using hk
          have := ih _ _ _ hr k hk' (by simpa only [List.getD_cons_succ] using hsk)
          have he : i + 1 + (k + 1) = i + (k + 1 + 1) := by omega
          simp only [List.getD_cons_succ]
          rw [this, he]

end Venice

namespace Venice

/-- The store read from a triangle followed by the line `polygon(5)`. -/
theorem readPolygons_lone : readPolygons 100 [raisedLine, loneLine] = .ok [raisedP, loneP] := by
  rfl

/-- The store read from the square followed by a skipped line, `polygon()`:
polygon `1` is the square again. -/
theorem readPolygons_again :
    readPolygons 100 [squareLine, Line.skipped] = .ok [squareP, againP] := by
  rfl

/-- C11 (counterexample): the file with the lines `polygon(1,7,3,7,3,9)` and
`polygon(5)` is accepted; the polygon stored at position `1` has no vertex
(`N = 0`) and the cached box `xmin = xmax = (5,7)`, made of its single field
and of a field of the line before, so no side of its box is the coordinate of
one of its vertices. -/
theorem C11_box_of_polygon_without_vertex :
    readPolygons 100 [raisedLine, loneLine] = .ok [raisedP, loneP] ∧
    loneP.id = 1 ∧ loneP.N = 0 ∧ loneP.xmin = (5, 7) ∧ loneP.xmax = (5, 7) ∧
    ¬ boxAttained loneP := by
  refine ⟨readPolygons_lone, rfl, rfl, rfl, rfl, ?_⟩
  rintro ⟨⟨j, hj, _⟩, _⟩
  exact absurd hj (Nat.not_lt_zero j)

/-- C11 (amended): in every store that was read, the polygon at input position
`i` has `id = i`; when line `i` is not skipped, its vertices are the pairs of
fields of line `i`; when line `i` is skipped and follows another line, it is
the polygon of that line under the number `i`; its cached box bounds every one
of its vertices; and, when it has at least one vertex, `xmin[0]`, `xmax[0]` are
the minimum and maximum of its `x` coordinates and `xmin[1]`, `xmax[1]` those
of its `y` coordinates (each is attained by a vertex). -/
theorem C11_id_and_tight_box (NVERTICES : Nat) (lines : List Line) (ps : List Polygon)
    (i : Nat) (hr : readPolygons NVERTICES lines = .ok ps) (hi : i < ps.length) :
    (ps.getD i Polygon.none).id = i ∧
    (∀ vals, lines.getD i Line.skipped = Line.fields vals →
      (ps.getD i Polygon.none).N = vals.length / 2 ∧
      ∀ j, j < (ps.getD i Polygon.none).N →
        (ps.getD i Polygon.none).x.getD j 0 = vals.getD (2 * j) 0 ∧
        (ps.getD i Polygon.none).y.getD j 0 = vals.getD (2 * j + 1) 0) ∧
    (∀ k, i = k + 1 → lines.getD i Line.skipped = Line.skipped →
      ps.getD i Polygon.none = { ps.getD k Polygon.none with id := i }) ∧
    boxBounds (ps.getD i Polygon.none) ∧
    (0 < (ps.getD i Polygon.none).N → boxAttained (ps.getD i Polygon.none)) := by
  have hl := (readPolygons_inv hr).1
  obtain ⟨N, item, h, hf⟩ := readLines_getD NVERTICES lines 0 _ ps hl i hi
  rw [Nat.zero_add] at h
  obtain ⟨h1, h2, h3, h4, h5⟩ := readPolygon_box i N item
  refine ⟨?_, ?_, ?_, ?_, ?_⟩
  · rw [h]; exact h1
  · intro vals hv
    obtain ⟨hN, rest, hitem⟩ := hf vals hv
    rw [h]
    refine ⟨by rw [h2, hN], ?_⟩
    intro j hj
    have hj2 : j < vals.length / 2 := by rw [h2, hN] at hj; exact hj
    obtain ⟨hx, hy⟩ := h3 j hj
    rw [hx, hy, hitem]
    exact ⟨getD_append_fields vals rest (2 * j) (by omega),
      getD_append_fields vals rest (2 * j + 1) (by omega)⟩
  · intro k hk hsk
    subst hk
    have := readLines_skipped NVERTICES lines 0 _ ps hl k hi hsk
    rw [Nat.zero_add] at this
    exact this
  · rw [h]; exact h4
  · rw [h]; exact h5

/-- C11 (amended) at the store read from the square `(0,0),(4,0),(4,4),(0,4)`: it has
four vertices and box `[0,4] x [0,4]`. -/
theorem C11_tight_box_witness :
    (readPolygons 100 [squareLine] = .ok [squareP] ∧ 0 < [squareP].length) ∧
    squareP.id = 0 ∧ squareP.N = 4 ∧ boxBounds squareP ∧ boxAttained squareP := by
  have hr : readPolygons 100 [squareLine] = .ok [squareP] := by rfl
  obtain ⟨h1, _, _, h4, h5⟩ := C11_id_and_tight_box 100 [squareLine] [squareP] 0 hr (by decide)
  exact ⟨⟨hr, by decide⟩, h1, rfl, h4, h5 (by decide)⟩

/-! ## The linear scan -/

/-- The loop of `insidePolygon` from index `i` with `n` turns is the leaf loop
over the ids `i, ..., i+n-1`. -/
theorem insidePolygonFrom_eq_leafScan (EPS : ℚ) (polys : List Polygon) (x0 x : ℚ × ℚ) :
    ∀ (n i : Nat), insidePolygonFrom EPS polys x0.1 x0.2 x.1 x.2 i n
      = leafScan EPS polys x0 x (List.range' i n) := by
  intro n
  induction n with
  | zero => intro i; rfl
  | succ n ih =>
    intro i
    rw [List.range'_succ, leafScan_cons, insidePolygonFrom, ih (i + 1)]
    rfl

/-- C12: on the tree built from any store that was read, for every reference
point `x0` and every query point `x`, `insidePolygonTree` returns the same
value and the same `poly_id` as the exhaustive scan `insidePolygon` over the
whole store in input order. -/
theorem C12_tree_query_equals_linear_scan (NVERTICES fuel : Nat) (lines : List Line)
    (b : Built) (EPS : ℚ) (x0 x : ℚ × ℚ)
    (hb : readPolygonFileTree NVERTICES fuel lines = .ok (some b)) :
    insidePolygonTree EPS b.polysAll b.tree x0 x
      = insidePolygon EPS b.polysAll b.polysAll.length x0.1 x0.2 x.1 x.2 := by
  rw [built_query_eq_scan hb EPS x0 x, List.range_eq_range']
  exact (insidePolygonFrom_eq_leafScan EPS b.polysAll x0 x b.polysAll.length 0).symm

/-- C12 at the overlapping squares `(0,0)..(4,4)` and `(2,2)..(6,6)`, reference
point `(-1,-1)` and query point `(3,7/2)`: both give polygon `0`. -/
theorem C12_linear_scan_witness :
    readPolygonFileTree 100 3 [squareLine, shiftLine] = .ok (some shiftBuilt) ∧
    insidePolygon machineEPS shiftBuilt.polysAll 2 (-1) (-1) 3 (7 / 2) = (1, 0) ∧
    insidePolygonTree machineEPS shiftBuilt.polysAll shiftBuilt.tree (-1, -1) (3, 7 / 2)
      = insidePolygon machineEPS shiftBuilt.polysAll shiftBuilt.polysAll.length
          (-1) (-1) 3 (7 / 2) := by
  have hb : readPolygonFileTree 100 3 [squareLine, shiftLine] = .ok (some shiftBuilt) :=
    readPolygonFileTree_eval [squareP, shiftP] (by rfl) (by decide) (by decide!)
  exact ⟨hb, by decide!,
    C12_tree_query_equals_linear_scan 100 3 _ shiftBuilt machineEPS (-1, -1) (3, 7 / 2) hb⟩

end Venice

namespace Venice

/-! ## Membership along the descent -/

/-- A polygon whose box strictly contains the query point has its minimum
below any split value that the point is below. -/
theorem inBox_xmin_lt {p : Polygon} {x : ℚ × ℚ} {d : Nat} {v : ℚ}
    (hb : inBox p x = true) (hx : at2 x d < v) : at2 p.xmin d < v := by
  by_contra h
  rw [inBox_false_of_left hx h] at hb
  exact Bool.false_ne_true hb

/-- A polygon whose box strictly contains the query point has its maximum
above any split value that the point is not below. -/
theorem inBox_xmax_gt {p : Polygon} {x : ℚ × ℚ} {d : Nat} {v : ℚ}
    (hb : inBox p x = true) (hx : ¬ at2 x d < v) : at2 p.xmax d > v := by
  by_contra h
  rw [inBox_false_of_right hx h] at hb
  exact Bool.false_ne_true hb

/-- In a tree built by `createNode`, a polygon handed to `createNode` whose box
strictly contains the query point is a member of every node that the descent
visits and of the node where it stops. -/
theorem createNode_visited (p : Polygon) (x : ℚ × ℚ) (hbox : inBox p x = true) (fuel : Nat) :
    ∀ (polys : List Polygon) (minArea : ℚ) (d : Nat) (xmin xmax : ℚ × ℚ) (t : Node),
      p ∈ polys → createNode fuel polys minArea d xmin xmax = some t →
      (∀ n ∈ visited t x, p.id ∈ n.poly_id) ∧ p.id ∈ reached t x := by
  induction fuel with
  | zero => intro _ _ _ _ _ _ _ h; simp [createNode] at h
  | succ k ih =>
    intro polys minArea d xmin xmax t hp h
    have hid : p.id ∈ polys.map (fun q => q.id) := List.mem_map.mpr ⟨p, hp, rfl⟩
    rcases createNode_cases h with ⟨_, rfl⟩ | ⟨hc, l, r, hl, hr, rfl⟩
    · constructor
      · intro n hn
        simp only [visited, List.mem_singleton] at hn
        subst hn
        exact hid
      · exact hid
    · have hne : ¬ (polys.map (fun q => q.id)).length = 0 := by
        intro h0; exact hc (Or.inl (by simpa using h0))
      by_cases hx : at2 x d < splitValue d xmin xmax
      · have hin : p ∈ leftPolys polys d (splitValue d xmin xmax) :=
          List.mem_filter.mpr ⟨hp, decide_eq_true (inBox_xmin_lt hbox hx)⟩
        obtain ⟨h1, h2⟩ := ih _ _ _ _ _ _ hin hl
        constructor
        · intro n hn
          simp only [visited, hne, hx, if_true, if_false, List.mem_cons] at hn
          rcases hn with rfl | hn
          · exact hid
          · exact h1 n hn
        · simp only [reached, hne, hx, if_true, if_false]
          exact h2
      · have hin : p ∈ rightPolys polys d (splitValue d xmin xmax) :=
          List.mem_filter.mpr ⟨hp, decide_eq_true (inBox_xmax_gt hbox hx)⟩
        obtain ⟨h1, h2⟩ := ih _ _ _ _ _ _ hin hr
        constructor
        · intro n hn
          simp only [visited, hne, hx, if_false, List.mem_cons] at hn
          rcases hn with rfl | hn
          · exact hid
          · exact h1 n hn
        · simp only [reached, hne, hx, if_false]
          exact h2

/-- C13: in the tree built from any store that was read, for every query point
`x` and every polygon `P` of the store whose bounding box strictly contains
`x`, the id of `P` is in the member list of every node visited by the descent
for `x` (left when `x[SplitDim] < SplitValue`, else right) and of the node where
the descent stops. -/
theorem C13_candidate_on_descent_path (NVERTICES fuel : Nat) (lines : List Line)
    (b : Built) (x : ℚ × ℚ) (P : Polygon)
    (hb : readPolygonFileTree NVERTICES fuel lines = .ok (some b))
    (hP : P ∈ b.polysAll) (hbox : inBox P x = true) :
    (∀ n ∈ visited b.tree x, P.id ∈ n.poly_id) ∧ P.id ∈ reached b.tree x := by
  obtain ⟨ps, _, h2⟩ := readPolygonFileTree_inv hb
  obtain ⟨hc, hp, _, _⟩ := buildTree_inv h2
  rw [hp] at hP
  exact createNode_visited P x hbox fuel ps _ _ _ _ _ hP hc

/-- C13 at the overlapping squares: the second square `(2,2)..(6,6)` straddles
the root split `x = 3` and is a member on the descent path of a point on the
left of it, `(5/2,5/2)`, and of a point on the right of it, `(5,5)`. -/
theorem C13_descent_path_witness :
    (readPolygonFileTree 100 3 [squareLine, shiftLine] = .ok (some shiftBuilt) ∧
      shiftP ∈ shiftBuilt.polysAll ∧ inBox shiftP (5 / 2, 5 / 2) = true ∧
      inBox shiftP (5, 5) = true) ∧
    ((∀ n ∈ visited shiftBuilt.tree (5 / 2, 5 / 2), shiftP.id ∈ n.poly_id) ∧
      shiftP.id ∈ reached shiftBuilt.tree (5 / 2, 5 / 2)) ∧
    ((∀ n ∈ visited shiftBuilt.tree (5, 5), shiftP.id ∈ n.poly_id) ∧
      shiftP.id ∈ reached shiftBuilt.tree (5, 5)) := by
  have hb : readPolygonFileTree 100 3 [squareLine, shiftLine] = .ok (some shiftBuilt) :=
    readPolygonFileTree_eval [squareP, shiftP] (by rfl) (by decide) (by decide!)
  have hP : shiftP ∈ shiftBuilt.polysAll := by decide
  have h1 : inBox shiftP (5 / 2, 5 / 2) = true := by decide!
  have h2 : inBox shiftP (5, 5) = true := by decide!
  exact ⟨⟨hb, hP, h1, h2⟩,
    C13_candidate_on_descent_path 100 3 _ shiftBuilt (5 / 2, 5 / 2) shiftP hb hP h1,
    C13_candidate_on_descent_path 100 3 _ shiftBuilt (5, 5) shiftP hb hP h2⟩

end Venice

namespace Venice

/-! ## The crossing solve -/

/-- The parameter `s` is the quotient of its numerator by `D`. -/
theorem edgeS_eq (p : Polygon) (x0 x : ℚ × ℚ) (j : Nat) :
    edgeS p x0 x j = fdiv (edgeSnum p x0 x j) (edgeD p x0 x j) := rfl

/-- The parameter `t` is the quotient of its numerator by `D`. -/
theorem edgeT_eq (p : Polygon) (x0 x : ℚ × ℚ) (j : Nat) :
    edgeT p x0 x j = fdiv (edgeTnum p x j) (edgeD p x0 x j) := rfl

/-- The range test on a finite quotient. -/
theorem inOpen_some (EPS s : ℚ) : inOpen EPS (some s) = true ↔ 0 < s ∧ s < 1 + EPS := by
  simp [inOpen]

/-! ## The crossing solve in `double` arithmetic -/

/-- With exact operations the computed solve is the exact solve. -/
theorem edgeFl_id (p : Polygon) (x0 x : ℚ × ℚ) (j : Nat) :
    edgeDFl (fun q => q) p x0 x j = edgeD p x0 x j ∧
    edgeSFl (fun q => q) p x0 x j = edgeS p x0 x j ∧
    edgeTFl (fun q => q) p x0 x j = edgeT p x0 x j :=
  ⟨rfl, rfl, rfl⟩

/-- With exact operations the range test is the exact range test. -/
theorem inOpenFl_id (EPS : ℚ) (s : Option ℚ) : inOpenFl (fun q => q) EPS s = inOpen EPS s := by
  cases s <;> rfl

/-- With exact operations both tests of the leaf loop are the exact tests. -/
theorem hitFl_id (EPS : ℚ) (p : Polygon) (x0 x : ℚ × ℚ) :
    hitFl (fun q => q) EPS p x0 x = hit EPS p x0 x := by
  have hc : crossedFl (fun q => q) EPS p x0 x = crossed EPS p x0 x := by
    funext j
    simp only [crossedFl, crossed, inOpenFl_id, (edgeFl_id p x0 x j).2.1,
      (edgeFl_id p x0 x j).2.2]
  simp only [hitFl, hit, NcrossFl, Ncross, hc]

/-- With exact operations the leaf loop is the exact leaf loop. -/
theorem leafScanFl_id (EPS : ℚ) (polysAll : List Polygon) (x0 x : ℚ × ℚ) :
    ∀ ids, leafScanFl (fun q => q) EPS polysAll x0 x ids = leafScan EPS polysAll x0 x ids := by
  intro ids
  induction ids with
  | nil => rfl
  | cons i rest ih => simp only [leafScanFl, leafScan, hitFl_id, ih]

/-- With exact operations the query in `double` arithmetic is the exact query
`insidePolygonTree`. -/
theorem insidePolygonTreeFl_id (EPS : ℚ) (polysAll : List Polygon) (x0 x : ℚ × ℚ) :
    ∀ t : Node, insidePolygonTreeFl (fun q => q) EPS polysAll t x0 x
      = insidePolygonTree EPS polysAll t x0 x := by
  intro t
  induction t with
  | LEAF ids => simp only [insidePolygonTreeFl, insidePolygonTree, leafScanFl_id]
  | NODE ids d v l r ihl ihr => simp only [insidePolygonTreeFl, insidePolygonTree, ihl, ihr]

/-- When no operation of the solve for edge `j` rounds, the computed `D`, `s`
and `t` are the exact ones. -/
theorem edgeFl_exact (fl : ℚ → ℚ) (p : Polygon) (x0 x : ℚ × ℚ) (j : Nat)
    (h : ∀ q ∈ edgeOps p x0 x j, fl q = q) :
    edgeDFl fl p x0 x j = edgeD p x0 x j ∧
    edgeSFl fl p x0 x j = edgeS p x0 x j ∧
    edgeTFl fl p x0 x j = edgeT p x0 x j := by
  have a1 := h (p.x.getD (nextVertex p.N j) 0 - p.x.getD j 0) (by simp [edgeOps])
  have a2 := h (x.2 - x0.2) (by simp [edgeOps])
  have a3 := h (p.y.getD (nextVertex p.N j) 0 - p.y.getD j 0) (by simp [edgeOps])
  have a4 := h (x.1 - x0.1) (by simp [edgeOps])
  have a5 := h (p.y.getD j 0 - x.2) (by simp [edgeOps])
  have a6 := h (p.x.getD j 0 - x.1) (by simp [edgeOps])
  have a7 := h ((p.x.getD (nextVertex p.N j) 0 - p.x.getD j 0) * (x.2 - x0.2))
    (by simp [edgeOps])
  have a8 := h ((p.y.getD (nextVertex p.N j) 0 - p.y.getD j 0) * (x.1 - x0.1))
    (by simp [edgeOps])
  have a9 := h ((x.1 - x0.1) * (p.y.getD j 0 - x.2)) (by simp [edgeOps])
  have a10 := h ((x.2 - x0.2) * (p.x.getD j 0 - x.1)) (by simp [edgeOps])
  have a11 := h ((p.x.getD j 0 - x.1) * (p.y.getD (nextVertex p.N j) 0 - p.y.getD j 0))
    (by simp [edgeOps])
  have a12 := h ((p.y.getD j 0 - x.2) * (p.x.getD (nextVertex p.N j) 0 - p.x.getD j 0))
    (by simp [edgeOps])
  have a13 : fl (edgeD p x0 x j) = edgeD p x0 x j := h _ (by simp [edgeOps])
  have a14 : fl (edgeSnum p x0 x j) = edgeSnum p x0 x j := h _ (by simp [edgeOps])
  have a15 : fl (edgeTnum p x j) = edgeTnum p x j := h _ (by simp [edgeOps])
  have a16 : fl (edgeSnum p x0 x j / edgeD p x0 x j) = edgeSnum p x0 x j / edgeD p x0 x j :=
    h _ (by simp [edgeOps])
  have a17 : fl (edgeTnum p x j / edgeD p x0 x j) = edgeTnum p x j / edgeD p x0 x j :=
    h _ (by simp [edgeOps])
  have hD : edgeDFl fl p x0 x j = edgeD p x0 x j := by
    unfold edgeDFl
    rw [a1, a2, a3, a4, a7, a8]
    exact a13
  have hdiv : ∀ n, fl (n / edgeD p x0 x j) = n / edgeD p x0 x j →
      fdivFl fl n (edgeD p x0 x j) = fdiv n (edgeD p x0 x j) := by
    intro n hn
    unfold fdivFl fdiv
    by_cases h0 : edgeD p x0 x j = 0
    · rw [if_pos h0, if_pos h0]
    · rw [if_neg h0, if_neg h0, hn]
  refine ⟨hD, ?_, ?_⟩
  · unfold edgeSFl
    rw [hD, a4, a5, a2, a6, a9, a10]
    have : fl ((x.1 - x0.1) * (p.y.getD j 0 - x.2) - (x.2 - x0.2) * (p.x.getD j 0 - x.1))
        = edgeSnum p x0 x j := a14
    rw [this, edgeS_eq]
    exact hdiv _ a16
  · unfold edgeTFl
    rw [hD, a6, a3, a5, a1, a11, a12]
    have : fl ((p.x.getD j 0 - x.1) * (p.y.getD (nextVertex p.N j) 0 - p.y.getD j 0)
        - (p.y.getD j 0 - x.2) * (p.x.getD (nextVertex p.N j) 0 - p.x.getD j 0))
        = edgeTnum p x j := a15
    rw [this, edgeT_eq]
    exact hdiv _ a17

/-- The function `insidePolygonTree` in `double` arithmetic runs the leaf loop
on the member list of the node where the descent stops. -/
theorem insidePolygonTreeFl_reached (fl : ℚ → ℚ) (EPS : ℚ) (polysAll : List Polygon)
    (x0 x : ℚ × ℚ) :
    ∀ t : Node, insidePolygonTreeFl fl EPS polysAll t x0 x
      = leafScanFl fl EPS polysAll x0 x (reached t x) := by
  intro t
  induction t with
  | LEAF ids =>
    by_cases h : ids.length = 0
    · have : ids = [] := List.length_eq_zero.mp h
      subst this
      simp [insidePolygonTreeFl, reached, leafScanFl]
    · simp [insidePolygonTreeFl, reached, h]
  | NODE ids d v l r ihl ihr =>
    by_cases h : ids.length = 0
    · have : ids = [] := List.length_eq_zero.mp h
      subst this
      simp [insidePolygonTreeFl, reached, leafScanFl]
    · by_cases hx : at2 x d < v
      · simp only [insidePolygonTreeFl, reached, h, hx, if_true, if_false, ihl]
      · simp only [insidePolygonTreeFl, reached, h, hx, if_false, ihr]

/-- When no operation of the solve rounds on the edges of `p`, and `1.0 + EPS`
is computed without rounding, both tests of the leaf loop give in `double`
arithmetic what they give in exact arithmetic. -/
theorem hitFl_exact (fl : ℚ → ℚ) (EPS : ℚ) (p : Polygon) (x0 x : ℚ × ℚ)
    (hE : fl (1 + EPS) = 1 + EPS)
    (h : ∀ j, j < p.N → ∀ q ∈ edgeOps p x0 x j, fl q = q) :
    hitFl fl EPS p x0 x = hit EPS p x0 x := by
  have hin : ∀ o, inOpenFl fl EPS o = inOpen EPS o := by
    intro o
    cases o with
    | none => rfl
    | some s => simp only [inOpenFl, inOpen, hE]
  have hc : ∀ j ∈ List.range p.N, crossedFl fl EPS p x0 x j = crossed EPS p x0 x j := by
    intro j hj
    obtain ⟨_, hs, ht⟩ := edgeFl_exact fl p x0 x j (h j (List.mem_range.mp hj))
    simp only [crossedFl, crossed, hin, hs, ht]
  simp only [hitFl, hit, NcrossFl, Ncross, List.filter_congr hc]

/-- When no operation of the solve rounds on the edges of the polygons of the
store, and `1.0 + EPS` is computed without rounding, the query in `double`
arithmetic returns what the exact query `insidePolygonTree` returns. -/
theorem insidePolygonTreeFl_exact (fl : ℚ → ℚ) (EPS : ℚ) (polysAll : List Polygon)
    (x0 x : ℚ × ℚ) (hE : fl (1 + EPS) = 1 + EPS)
    (h : ∀ p ∈ polysAll, ∀ j, j < p.N → ∀ q ∈ edgeOps p x0 x j, fl q = q) :
    ∀ t : Node, insidePolygonTreeFl fl EPS polysAll t x0 x
      = insidePolygonTree EPS polysAll t x0 x := by
  have hh : ∀ i, hitFl fl EPS (polysAll.getD i Polygon.none) x0 x
      = hit EPS (polysAll.getD i Polygon.none) x0 x := by
    intro i
    apply hitFl_exact fl EPS _ x0 x hE
    by_cases hi : i < polysAll.length
    · have hm : polysAll.getD i Polygon.none ∈ polysAll := by
        rw [List.getD_eq_getElem _ _ hi]
        exact List.getElem_mem hi
      exact h _ hm
    · have hn : polysAll.getD i Polygon.none = Polygon.none := by
        simp [List.getD_eq_getElem?_getD, List.getElem?_eq_none (not_lt.mp hi)]
      rw [hn]
      intro j hj
      exact absurd hj (Nat.not_lt_zero j)
  have hl : ∀ ids, leafScanFl fl EPS polysAll x0 x ids = leafScan EPS polysAll x0 x ids := by
    intro ids
    induction ids with
    | nil => rfl
    | cons i rest ih => simp only [leafScanFl, leafScan, hh, ih]
  intro t
  rw [insidePolygonTreeFl_reached, insidePolygonTree_reached, hl]

/-- In binary64 arithmetic no operation of the solve rounds for the square,
the reference point `(-1,-1)` and the query point `(3,3)`, so the query returns
what the exact query returns: polygon `0`. -/
theorem insidePolygonTreeFl_exact_witness :
    (round64 (1 + machineEPS) = 1 + machineEPS ∧
      ∀ p ∈ [squareP], ∀ j, j < p.N → ∀ q ∈ edgeOps p (-1, -1) (3, 3) j, round64 q = q) ∧
    insidePolygonTreeFl round64 machineEPS [squareP] squareTree (-1, -1) (3, 3)
      = insidePolygonTree machineEPS [squareP] squareTree (-1, -1) (3, 3) ∧
    insidePolygonTree machineEPS [squareP] squareTree (-1, -1) (3, 3) = (1, 0) := by
  have hE : round64 (1 + machineEPS) = 1 + machineEPS := by decide!
  have h : ∀ p ∈ [squareP], ∀ j, j < p.N → ∀ q ∈ edgeOps p (-1, -1) (3, 3) j,
      round64 q = q := by
    intro p hp j hj
    have hp' : p = squareP := by simpa using hp
    subst hp'
    have hj4 : j < 4 := hj
    interval_cases j <;> decide!
  exact ⟨⟨hE, h⟩, insidePolygonTreeFl_exact round64 machineEPS [squareP] (-1, -1) (3, 3) hE h
    squareTree, by decide!⟩

/-! ## Rounding to a `double`: evaluations -/

/-- The double nearest to `2/3` is `0x1.5555555555555p-1`, the double nearest
to `1/10` is `0x1.999999999999ap-4`; a tie goes to the even neighbour; small
integers and their quarters are doubles. -/
theorem round64_values :
    round64 (2 / 3) = 6004799503160661 / 2 ^ 53 ∧
    round64 (1 / 10) = 3602879701896397 / 2 ^ 55 ∧
    round64 (9007199254740993 / 9007199254740992) = 1 ∧
    round64 (9007199254740995 / 9007199254740992) = 2251799813685249 / 2251799813685248 ∧
    round64 16 = 16 ∧ round64 (-3 / 4) = -3 / 4 := by
  refine ⟨by decide!, by decide!, by decide!, by decide!, by decide!, by decide!⟩

/-- In binary64 arithmetic `determineMachineEpsilon` returns `100 * 2^-53`, the
value `machineEPS`, and `1.0 + EPS` is computed without rounding. -/
theorem determineMachineEpsilon_round64 :
    determineMachineEpsilon round64 53 = some machineEPS ∧
    round64 (1 + machineEPS) = 1 + machineEPS := by
  refine ⟨by decide!, by decide!⟩

/-- For the square, the reference point `(-1,-1)`, the query point `(2,2)` and
edge `3`, the exact `t` is `2/3` and the computed `t` is the double nearest to
it, `0x1.5555555555555p-1`; the edge is counted in both. -/
theorem edgeTFl_rounds :
    edgeT squareP (-1, -1) (2, 2) 3 = some (2 / 3) ∧
    edgeTFl round64 squareP (-1, -1) (2, 2) 3 = some (6004799503160661 / 2 ^ 53) ∧
    crossed machineEPS squareP (-1, -1) (2, 2) 3 = true ∧
    crossedFl round64 machineEPS squareP (-1, -1) (2, 2) 3 = true := by
  refine ⟨by decide!, by decide!, by decide!, by decide!⟩

/-- Rounding can change the count: for the triangle read from
`polygon(0.6,0.5,0.4,0.1,0.2,0.3)`, the reference point `(-1,-1)` and the query
point `(0.4,0.4)`, the exact solve on the doubles read counts two edges and
the query reports no polygon, while the solve in binary64 arithmetic computes
`t = 0` for edge `2`, counts one edge, and the query reports polygon `0`. -/
theorem rounding_changes_count :
    readPolygons 100 [decimalLine] = .ok [decimalP] ∧
    Ncross machineEPS decimalP (-1, -1) (round64 (2 / 5), round64 (2 / 5)) = 2 ∧
    insidePolygonTree machineEPS [decimalP] (.LEAF [0]) (-1, -1)
      (round64 (2 / 5), round64 (2 / 5)) = (0, -1) ∧
    edgeTFl round64 decimalP (-1, -1) (round64 (2 / 5), round64 (2 / 5)) 2 = some 0 ∧
    NcrossFl round64 machineEPS decimalP (-1, -1) (round64 (2 / 5), round64 (2 / 5)) = 1 ∧
    insidePolygonTreeFl round64 machineEPS [decimalP] (.LEAF [0]) (-1, -1)
      (round64 (2 / 5), round64 (2 / 5)) = (1, 0) := by
  refine ⟨by rfl, by decide!, by decide!, by decide!, by decide!, by decide!⟩

end Venice

namespace Venice

/-! ## A zero denominator -/

/-- In IEEE-754 arithmetic the range test fails on every quotient by zero,
whatever the numerator and the sign of the zero. -/
theorem inOpen754_div_zero (EPS a : ℚ) (negZero : Bool) :
    inOpen754 EPS (ieeeDiv a 0 negZero) = false := by
  unfold ieeeDiv
  rw [if_pos rfl]
  by_cases ha : a = 0
  · rw [if_pos ha]; rfl
  · rw [if_neg ha]
    by_cases hs : decide (0 < a) = !negZero
    · rw [if_pos hs]; rfl
    · rw [if_neg hs]; rfl

/-- The range test on the modelled quotient `fdiv a b` is the IEEE-754 range
test on the IEEE-754 quotient, whatever the sign of a zero denominator. -/
theorem inOpen_fdiv_eq_ieee (EPS a b : ℚ) (negZero : Bool) :
    inOpen EPS (fdiv a b) = inOpen754 EPS (ieeeDiv a b negZero) := by
  by_cases hb : b = 0
  · subst hb
    rw [inOpen754_div_zero]
    simp [fdiv, inOpen]
  · simp only [fdiv, ieeeDiv, if_neg hb, inOpen, inOpen754, Quot754.lt]

/-- The query always returns a well-defined pair: `0` with `poly_id` `-1`, or
`1` with the position of a polygon of the store. -/
theorem insidePolygonTree_total (EPS : ℚ) (polysAll : List Polygon) (t : Node)
    (x0 x : ℚ × ℚ) :
    insidePolygonTree EPS polysAll t x0 x = (0, -1) ∨
      ∃ k : Nat, k < polysAll.length ∧ insidePolygonTree EPS polysAll t x0 x = (1, (k : Int)) := by
  rw [insidePolygonTree_reached]
  rcases leafScan_cases EPS polysAll x0 x (reached t x) with ⟨h0, _⟩ | ⟨_, k, _, _, hr, hk, _⟩
  · exact Or.inl h0
  · exact Or.inr ⟨k, hit_lt_length hk, hr⟩

/-- C15 (counterexample): for the square, the reference point `(-1,1)`, the
query point `(2,1)` and edge `0`, from `(0,0)` to `(4,0)`, parallel to the query
segment, `D = 0` and no guard stops the computation: the quotients `s = -3/D`
and `t = 4/D` are taken with the zero denominator, giving the non-finite values
`-Inf` and `+Inf` (for a positive zero). -/
theorem C15_division_by_zero_is_reached :
    edgeD squareP (-1, 1) (2, 1) 0 = 0 ∧
    edgeSnum squareP (-1, 1) (2, 1) 0 = -3 ∧
    edgeTnum squareP (2, 1) 0 = 4 ∧
    edgeS squareP (-1, 1) (2, 1) 0 = none ∧
    edgeT squareP (-1, 1) (2, 1) 0 = none ∧
    ieeeDiv (edgeSnum squareP (-1, 1) (2, 1) 0) (edgeD squareP (-1, 1) (2, 1) 0) false
      = .negInf ∧
    ieeeDiv (edgeTnum squareP (2, 1) 0) (edgeD squareP (-1, 1) (2, 1) 0) false = .posInf := by
  refine ⟨by decide!, by decide!, by decide!, by decide!, by decide!, by decide!, by decide!⟩

/-- C15 (amended): for every polygon edge whose denominator `D` is zero there is
no guard: both quotients `s` and `t` are taken with the zero denominator and
are non-finite; in IEEE-754 arithmetic the test `0 < s && s < 1+EPS` is false on
such a value whatever the numerator and the sign of the zero, so the edge is not
counted (it does not increment `Ncross`), and the query still returns a
well-defined result: `0` with `poly_id` `-1`, or `1` with the position of a
polygon of the store. -/
theorem C15_zero_denominator_not_counted (EPS : ℚ) (p : Polygon) (x0 x : ℚ × ℚ) (j : Nat)
    (hD : edgeD p x0 x j = 0) :
    edgeS p x0 x j = none ∧ edgeT p x0 x j = none ∧
    (∀ negZero, inOpen754 EPS (ieeeDiv (edgeSnum p x0 x j) (edgeD p x0 x j) negZero) = false) ∧
    (∀ negZero, inOpen754 EPS (ieeeDiv (edgeTnum p x j) (edgeD p x0 x j) negZero) = false) ∧
    crossed EPS p x0 x j = false ∧
    Ncross EPS p x0 x
      = (List.range p.N).countP (fun k => decide (edgeD p x0 x k ≠ 0) && crossed EPS p x0 x k) ∧
    ∀ (polysAll : List Polygon) (t : Node),
      insidePolygonTree EPS polysAll t x0 x = (0, -1) ∨
        ∃ k : Nat, k < polysAll.length ∧
          insidePolygonTree EPS polysAll t x0 x = (1, (k : Int)) := by
  have hs : edgeS p x0 x j = none := by rw [edgeS_eq, hD, fdiv, if_pos rfl]
  have ht : edgeT p x0 x j = none := by rw [edgeT_eq, hD, fdiv, if_pos rfl]
  have hzero : ∀ k, edgeD p x0 x k = 0 → crossed EPS p x0 x k = false := by
    intro k hk
    have : edgeS p x0 x k = none := by rw [edgeS_eq, hk, fdiv, if_pos rfl]
    rw [crossed, this]
    rfl
  refine ⟨hs, ht, ?_, ?_, hzero j hD, ?_, fun polysAll t => insidePolygonTree_total EPS polysAll t x0 x⟩
  · intro z; rw [hD]; exact inOpen754_div_zero _ _ _
  · intro z; rw [hD]; exact inOpen754_div_zero _ _ _
  · rw [Ncross, List.countP_eq_length_filter]
    congr 1
    apply List.filter_congr
    intro k _
    by_cases hk : edgeD p x0 x k = 0
    · rw [hzero k hk]; simp
    · simp [hk]

/-- C15 (amended) at the square, reference point `(-1,1)`, query point `(2,1)`
and edge `0`, parallel to the query segment. -/
theorem C15_zero_denominator_witness :
    edgeD squareP (-1, 1) (2, 1) 0 = 0 ∧
    crossed machineEPS squareP (-1, 1) (2, 1) 0 = false ∧
    insidePolygonTree machineEPS squareBuilt.polysAll squareBuilt.tree (-1, 1) (2, 1) = (1, 0) :=
  ⟨by decide!,
    (C15_zero_denominator_not_counted machineEPS squareP (-1, 1) (2, 1) 0 (by decide!)).2.2.2.2.1,
    by decide!⟩

end Venice

namespace Venice

/-! ## Every node of a built tree is the result of a call of `createNode` -/

/-- The split dimension alternates with the depth. -/
theorem childDim_mod (k : Nat) : childDim (k % 2) = (k + 1) % 2 := by
  unfold childDim
  rcases Nat.mod_two_eq_zero_or_one k with h | h
  · rw [h]
    have : (k + 1) % 2 = 1 := by omega
    rw [this]
    rfl
  · rw [h]
    have : (k + 1) % 2 = 0 := by omega
    rw [this]
    rfl

/-- The member list of the node returned by `createNode` lists the ids of the
polygons handed to it, in their order. -/
theorem createNode_root_ids {fuel : Nat} {polys : List Polygon} {minArea : ℚ} {d : Nat}
    {xmin xmax : ℚ × ℚ} {t : Node} (h : createNode fuel polys minArea d xmin xmax = some t) :
    t.poly_id = polys.map (fun p => p.id) := by
  cases fuel with
  | zero => simp [createNode] at h
  | succ n =>
    rcases createNode_cases h with ⟨_, rfl⟩ | ⟨_, l, r, _, _, rfl⟩
    · rfl
    · rfl

/-- The root of a tree is the first of its placed nodes. -/
theorem nodesAt_root (t : Node) (k : Nat) (xmin xmax : ℚ × ℚ) :
    (⟨t, k, xmin, xmax⟩ : Placed) ∈ nodesAt t k xmin xmax := by
  cases t with
  | LEAF ids => exact List.mem_singleton.mpr rfl
  | NODE ids d v l r => exact List.mem_cons_self _ _

/-- The children of a placed internal node are placed one level below, each
with the region of its parent clamped at `SplitValue` along `SplitDim`. -/
theorem nodesAt_children :
    ∀ (t : Node) (k : Nat) (xmin xmax : ℚ × ℚ) (e : Placed), e ∈ nodesAt t k xmin xmax →
      ∀ ids d v l r, e.node = .NODE ids d v l r →
        (⟨l, e.depth + 1, e.xmin, set2 e.xmax d v⟩ : Placed) ∈ nodesAt t k xmin xmax ∧
        (⟨r, e.depth + 1, set2 e.xmin d v, e.xmax⟩ : Placed) ∈ nodesAt t k xmin xmax := by
  intro t
  induction t with
  | LEAF ids0 =>
    intro k xmin xmax e he ids d v l r hn
    simp only [nodesAt, List.mem_singleton] at he
    subst he
    exact absurd hn (by simp)
  | NODE ids0 d0 v0 l0 r0 ihl ihr =>
    intro k xmin xmax e he ids d v l r hn
    simp only [nodesAt, List.mem_cons, List.mem_append] at he ⊢
    rcases he with rfl | he | he
    · simp only [Node.NODE.injEq] at hn
      obtain ⟨_, rfl, rfl, rfl, rfl⟩ := hn
      exact ⟨Or.inr (Or.inl (nodesAt_root _ _ _ _)), Or.inr (Or.inr (nodesAt_root _ _ _ _))⟩
    · obtain ⟨h1, h2⟩ := ihl _ _ _ e he ids d v l r hn
      exact ⟨Or.inr (Or.inl h1), Or.inr (Or.inl h2)⟩
    · obtain ⟨h1, h2⟩ := ihr _ _ _ e he ids d v l r hn
      exact ⟨Or.inr (Or.inr h1), Or.inr (Or.inr h2)⟩

/-- A box that overlaps a region and starts below the split value overlaps the
left half of the region. -/
theorem boxOverlaps_left {p : Polygon} {xmin xmax : ℚ × ℚ} {d : Nat} {v : ℚ}
    (h : boxOverlaps p xmin xmax) (hv : at2 p.xmin d < v) :
    boxOverlaps p xmin (set2 xmax d v) := by
  obtain ⟨h1, h2, h3, h4⟩ := h
  unfold at2 at hv
  unfold boxOverlaps set2
  by_cases hd : d = 0
  · simp only [hd, if_true] at hv ⊢
    exact ⟨le_of_lt hv, h2, h3, h4⟩
  · simp only [hd, if_false] at hv ⊢
    exact ⟨h1, h2, le_of_lt hv, h4⟩

/-- A box that overlaps a region and ends above the split value overlaps the
right half of the region. -/
theorem boxOverlaps_right {p : Polygon} {xmin xmax : ℚ × ℚ} {d : Nat} {v : ℚ}
    (h : boxOverlaps p xmin xmax) (hv : at2 p.xmax d > v) :
    boxOverlaps p (set2 xmin d v) xmax := by
  obtain ⟨h1, h2, h3, h4⟩ := h
  unfold at2 at hv
  unfold boxOverlaps set2
  by_cases hd : d = 0
  · simp only [hd, if_true] at hv ⊢
    exact ⟨h1, le_of_lt hv, h3, h4⟩
  · simp only [hd, if_false] at hv ⊢
    exact ⟨h1, h2, h3, le_of_lt hv⟩

/-- Every placed node of a tree built by `createNode`, started at depth `k` with
split dimension `k mod 2`, is itself the result of a call of `createNode` with
the same `minArea`, split dimension its depth `mod 2`, its own region, and
polygons taken in order from those of the first call, all of which overlap its
region. -/
theorem createNode_nodesAt (minArea : ℚ) (fuel : Nat) :
    ∀ (polys : List Polygon) (k : Nat) (xmin xmax : ℚ × ℚ) (t : Node),
      (∀ p ∈ polys, boxOverlaps p xmin xmax) →
      createNode fuel polys minArea (k % 2) xmin xmax = some t →
      ∀ e ∈ nodesAt t k xmin xmax, ∃ (f : Nat) (polys' : List Polygon),
        List.Sublist polys' polys ∧ (∀ p ∈ polys', boxOverlaps p e.xmin e.xmax) ∧
        createNode (f + 1) polys' minArea (e.depth % 2) e.xmin e.xmax = some e.node := by
  induction fuel with
  | zero => intro _ _ _ _ _ _ h; simp [createNode] at h
  | succ n ih =>
    intro polys k xmin xmax t hov h e he
    rcases createNode_cases h with ⟨_, rfl⟩ | ⟨_, l, r, hl, hr, rfl⟩
    · simp only [nodesAt, List.mem_singleton] at he
      subst he
      exact ⟨n, polys, List.Sublist.refl _, hov, h⟩
    · simp only [nodesAt, List.mem_cons, List.mem_append] at he
      rw [childDim_mod] at hl hr
      rcases he with rfl | he | he
      · exact ⟨n, polys, List.Sublist.refl _, hov, h⟩
      · obtain ⟨f, polys', hs, ho, hc⟩ := ih _ (k + 1) _ _ l
          (fun p hp => boxOverlaps_left (hov p (List.mem_of_mem_filter hp))
            (of_decide_eq_true (List.mem_filter.mp hp).2)) hl e he
        exact ⟨f, polys', hs.trans (List.filter_sublist _), ho, hc⟩
      · obtain ⟨f, polys', hs, ho, hc⟩ := ih _ (k + 1) _ _ r
          (fun p hp => boxOverlaps_right (hov p (List.mem_of_mem_filter hp))
            (of_decide_eq_true (List.mem_filter.mp hp).2)) hr e he
        exact ⟨f, polys', hs.trans (List.filter_sublist _), ho, hc⟩

/-- The polygons of a store that was read have boxes that are not inverted. -/
theorem readPolygons_box_valid {NVERTICES : Nat} {lines : List Line} {ps : List Polygon}
    (h : readPolygons NVERTICES lines = .ok ps) (p : Polygon) (hp : p ∈ ps) :
    p.xmin.1 ≤ p.xmax.1 ∧ p.xmin.2 ≤ p.xmax.2 := by
  obtain ⟨k, hk, rfl⟩ := List.mem_iff_getElem.mp hp
  obtain ⟨N, item, h1, _⟩ := readLines_getD NVERTICES lines 0 _ ps (readPolygons_inv h).1 k hk
  have h2 : ps.getD k Polygon.none = ps[k] := by simp [List.getD_eq_getElem?_getD, hk]
  rw [h2] at h1
  rw [h1]
  exact readPolygon_box_valid _ _ _

/-- Every polygon of a store that was read overlaps the overall limits. -/
theorem readPolygons_overlap_limits {NVERTICES : Nat} {lines : List Line}
    {ps : List Polygon} (h : readPolygons NVERTICES lines = .ok ps) (p : Polygon)
    (hp : p ∈ ps) : boxOverlaps p (limits ps).1 (limits ps).2 := by
  obtain ⟨l1, l2, l3, l4⟩ := limits_bounds ps p hp
  obtain ⟨v1, v2⟩ := readPolygons_box_valid h p hp
  exact ⟨le_trans v1 l3, le_trans l1 v1, le_trans v2 l4, le_trans l2 v2⟩

/-- Every placed node of the tree built from a store that was read is the
result of a call of `createNode` with the `minArea` of the store, split
dimension its depth `mod 2`, its own region, and polygons of the store, in
order, that overlap its region. -/
theorem built_node (NVERTICES fuel : Nat) (lines : List Line) (b : Built)
    (hb : readPolygonFileTree NVERTICES fuel lines = .ok (some b)) :
    ∀ e ∈ nodesAt b.tree 0 b.xmin b.xmax, ∃ (f : Nat) (polys' : List Polygon),
      List.Sublist polys' b.polysAll ∧
      (∀ p ∈ polys', b.polysAll.getD p.id Polygon.none = p) ∧
      (∀ p ∈ polys', boxOverlaps p e.xmin e.xmax) ∧
      createNode (f + 1) polys' (minAreaOf b.polysAll) (e.depth % 2) e.xmin e.xmax
        = some e.node := by
  obtain ⟨ps, h1, h2⟩ := readPolygonFileTree_inv hb
  obtain ⟨hc, hp, hxmin, hxmax⟩ := buildTree_inv h2
  rw [hp, hxmin, hxmax]
  intro e he
  obtain ⟨f, polys', hs, ho, hcn⟩ := createNode_nodesAt (minAreaOf ps) fuel ps 0 _ _ b.tree
    (fun p hp => readPolygons_overlap_limits h1 p hp) hc e he
  exact ⟨f, polys', hs, fun p hp => readPolygons_lookup h1 p (hs.subset hp), ho, hcn⟩

end Venice

namespace Venice

/-- An internal node of the tree built from a store that was read: its split
dimension is its depth `mod 2`, its split value the midpoint of its region, and
the member lists of the node and of its children list the ids of polygons of
the store and of those kept by the two filters. -/
theorem built_internal (NVERTICES fuel : Nat) (lines : List Line) (b : Built)
    (hb : readPolygonFileTree NVERTICES fuel lines = .ok (some b))
    (e : Placed) (he : e ∈ nodesAt b.tree 0 b.xmin b.xmax)
    (ids : List Nat) (d : Nat) (v : ℚ) (l r : Node) (hn : e.node = .NODE ids d v l r) :
    ∃ polys' : List Polygon,
      List.Sublist polys' b.polysAll ∧
      (∀ p ∈ polys', b.polysAll.getD p.id Polygon.none = p) ∧
      ids = polys'.map (fun p => p.id) ∧
      d = e.depth % 2 ∧ v = splitValue d e.xmin e.xmax ∧
      l.poly_id = (leftPolys polys' d v).map (fun p => p.id) ∧
      r.poly_id = (rightPolys polys' d v).map (fun p => p.id) ∧
      ¬ (polys'.length = 0 ∨ regionArea e.xmin e.xmax < minAreaOf b.polysAll) := by
  obtain ⟨f, polys', hs, hlook, _, hc⟩ := built_node NVERTICES fuel lines b hb e he
  rcases createNode_cases hc with ⟨_, hleaf⟩ | ⟨hcond, l', r', hl, hr, hnode⟩
  · rw [hn] at hleaf
    exact absurd hleaf (by simp)
  · rw [hn] at hnode
    simp only [Node.NODE.injEq] at hnode
    obtain ⟨h1, h2, h3, h4, h5⟩ := hnode
    subst h1 h2 h3 h4 h5
    exact ⟨polys', hs, hlook, rfl, rfl, rfl, createNode_root_ids hl, createNode_root_ids hr,
      hcond⟩

/-- Filtering the ids by a test on the polygon looked up in the store is
filtering the polygons by the test. -/
theorem map_id_filter (polysAll polys : List Polygon) (g : Polygon → Bool)
    (hlook : ∀ p ∈ polys, polysAll.getD p.id Polygon.none = p) :
    (polys.filter g).map (fun p => p.id)
      = (polys.map (fun p => p.id)).filter (fun i => g (polysAll.getD i Polygon.none)) := by
  induction polys with
  | nil => rfl
  | cons p rest ih =>
    have ih' := ih (fun q hq => hlook q (List.mem_cons_of_mem _ hq))
    have hp := hlook p (List.mem_cons_self _ _)
    by_cases hg : g p = true
    · rw [List.filter_cons_of_pos hg, List.map_cons, List.map_cons,
        List.filter_cons_of_pos (by rw [hp]; exact hg), ih']
    · rw [List.filter_cons_of_neg hg, List.map_cons,
        List.filter_cons_of_neg (by rw [hp]; exact hg), ih']

/-- Every member of a placed node of a built tree is a polygon of the store
whose box overlaps the region of the node. -/
theorem built_members_overlap (NVERTICES fuel : Nat) (lines : List Line) (b : Built)
    (hb : readPolygonFileTree NVERTICES fuel lines = .ok (some b))
    (e : Placed) (he : e ∈ nodesAt b.tree 0 b.xmin b.xmax) :
    ∀ i ∈ e.node.poly_id, boxOverlaps (b.polysAll.getD i Polygon.none) e.xmin e.xmax := by
  obtain ⟨f, polys', _, hlook, hov, hc⟩ := built_node NVERTICES fuel lines b hb e he
  intro i hi
  rw [createNode_root_ids hc] at hi
  obtain ⟨p, hp, rfl⟩ := List.mem_map.mp hi
  rw [hlook p hp]
  exact hov p hp

/-- C16: in the tree built by `readPolygonFileTree` (root region: the overall
bounding box of the store), for every internal node and each of its two
children, the bounding box of every polygon in the member list of the child
overlaps the region rectangle of the child, which is the region of the parent
clamped at `SplitValue` along `SplitDim`. -/
theorem C16_child_members_overlap_child_region (NVERTICES fuel : Nat)
    (lines : List Line) (b : Built)
    (hb : readPolygonFileTree NVERTICES fuel lines = .ok (some b))
    (e : Placed) (he : e ∈ nodesAt b.tree 0 b.xmin b.xmax)
    (ids : List Nat) (d : Nat) (v : ℚ) (l r : Node) (hn : e.node = .NODE ids d v l r) :
    (b.xmin, b.xmax) = limits b.polysAll ∧
    (∀ i ∈ l.poly_id,
      boxOverlaps (b.polysAll.getD i Polygon.none) e.xmin (set2 e.xmax d v)) ∧
    (∀ i ∈ r.poly_id,
      boxOverlaps (b.polysAll.getD i Polygon.none) (set2 e.xmin d v) e.xmax) := by
  obtain ⟨hl, hr⟩ := nodesAt_children _ _ _ _ e he ids d v l r hn
  refine ⟨?_, built_members_overlap NVERTICES fuel lines b hb _ hl,
    built_members_overlap NVERTICES fuel lines b hb _ hr⟩
  obtain ⟨ps, _, h2⟩ := readPolygonFileTree_inv hb
  obtain ⟨_, hp, hxmin, hxmax⟩ := buildTree_inv h2
  rw [hp, hxmin, hxmax]

/-- C16 at the root of the tree of the squares `(0,0)..(4,4)` and
`(10,10)..(14,14)`: region `[0,14] x [0,14]`, split at `x = 7`; the left child
holds polygon `0` and the right child polygon `1`. -/
theorem C16_child_region_witness :
    (readPolygonFileTree 100 5 [squareLine, farLine] = .ok (some farBuilt) ∧
      (⟨farBuilt.tree, 0, (0, 0), (14, 14)⟩ : Placed)
        ∈ nodesAt farBuilt.tree 0 farBuilt.xmin farBuilt.xmax) ∧
    boxOverlaps squareP (0, 0) (set2 (14, 14) 0 7) ∧
    boxOverlaps farP (set2 (0, 0) 0 7) (14, 14) := by
  have hb : readPolygonFileTree 100 5 [squareLine, farLine] = .ok (some farBuilt) :=
    readPolygonFileTree_eval [squareP, farP] (by rfl) (by decide) (by decide!)
  have he : (⟨farBuilt.tree, 0, (0, 0), (14, 14)⟩ : Placed)
      ∈ nodesAt farBuilt.tree 0 farBuilt.xmin farBuilt.xmax := nodesAt_root _ _ _ _
  obtain ⟨_, h1, h2⟩ := C16_child_members_overlap_child_region 100 5 _ farBuilt hb _ he
    _ _ _ _ _ rfl
  exact ⟨⟨hb, he⟩, h1 0 (by decide), h2 1 (by decide)⟩

/-- The member lists of the children of an internal node of a built tree are
the member list of the node filtered by the two tests on the boxes. -/
theorem built_children_filters (NVERTICES fuel : Nat) (lines : List Line) (b : Built)
    (hb : readPolygonFileTree NVERTICES fuel lines = .ok (some b))
    (e : Placed) (he : e ∈ nodesAt b.tree 0 b.xmin b.xmax)
    (ids : List Nat) (d : Nat) (v : ℚ) (l r : Node) (hn : e.node = .NODE ids d v l r) :
    l.poly_id = ids.filter (fun i => decide (at2 (b.polysAll.getD i Polygon.none).xmin d < v)) ∧
    r.poly_id
      = ids.filter (fun i => decide (at2 (b.polysAll.getD i Polygon.none).xmax d > v)) := by
  obtain ⟨polys', _, hlook, hids, _, _, hl, hr, _⟩ :=
    built_internal NVERTICES fuel lines b hb e he ids d v l r hn
  constructor
  · rw [hl, hids]
    exact map_id_filter b.polysAll polys' (fun p => decide (at2 p.xmin d < v)) hlook
  · rw [hr, hids]
    exact map_id_filter b.polysAll polys' (fun p => decide (at2 p.xmax d > v)) hlook

/-- C18: in the tree built from a store that was read, for every internal node
with split dimension `d` and split value `v`, the member list of the left child
is the member list of the node filtered, in order, by "box minimum along `d`
strictly below `v`", that of the right child the same list filtered by "box
maximum along `d` strictly above `v`"; so a member whose box straddles `v`
(`min < v < max`) is in both children. -/
theorem C18_children_are_filters (NVERTICES fuel : Nat) (lines : List Line) (b : Built)
    (hb : readPolygonFileTree NVERTICES fuel lines = .ok (some b))
    (e : Placed) (he : e ∈ nodesAt b.tree 0 b.xmin b.xmax)
    (ids : List Nat) (d : Nat) (v : ℚ) (l r : Node) (hn : e.node = .NODE ids d v l r) :
    l.poly_id = ids.filter (fun i => decide (at2 (b.polysAll.getD i Polygon.none).xmin d < v)) ∧
    r.poly_id = ids.filter (fun i => decide (at2 (b.polysAll.getD i Polygon.none).xmax d > v)) ∧
    (∀ i ∈ ids, at2 (b.polysAll.getD i Polygon.none).xmin d < v →
      v < at2 (b.polysAll.getD i Polygon.none).xmax d → i ∈ l.poly_id ∧ i ∈ r.poly_id) := by
  obtain ⟨h1, h2⟩ := built_children_filters NVERTICES fuel lines b hb e he ids d v l r hn
  refine ⟨h1, h2, ?_⟩
  intro i hi hlo hhi
  rw [h1, h2]
  exact ⟨List.mem_filter.mpr ⟨hi, decide_eq_true hlo⟩, List.mem_filter.mpr ⟨hi, decide_eq_true hhi⟩⟩

/-- C18 at the root of the tree of the overlapping squares: the second square
`(2,2)..(6,6)` straddles the split `x = 3` and is in both children. -/
theorem C18_children_filters_witness :
    (readPolygonFileTree 100 3 [squareLine, shiftLine] = .ok (some shiftBuilt) ∧
      (⟨shiftBuilt.tree, 0, (0, 0), (6, 6)⟩ : Placed)
        ∈ nodesAt shiftBuilt.tree 0 shiftBuilt.xmin shiftBuilt.xmax) ∧
    (1 ∈ [0, 1] ∧ at2 (shiftBuilt.polysAll.getD 1 Polygon.none).xmin 0 < 3 ∧
      3 < at2 (shiftBuilt.polysAll.getD 1 Polygon.none).xmax 0) ∧
    (1 ∈ (Node.NODE [0, 1] 1 3 (.LEAF [0, 1]) (.LEAF [0, 1])).poly_id ∧
      1 ∈ (Node.NODE [0, 1] 1 3 (.LEAF [0, 1]) (.LEAF [0, 1])).poly_id) := by
  have hb : readPolygonFileTree 100 3 [squareLine, shiftLine] = .ok (some shiftBuilt) :=
    readPolygonFileTree_eval [squareP, shiftP] (by rfl) (by decide) (by decide!)
  have he : (⟨shiftBuilt.tree, 0, (0, 0), (6, 6)⟩ : Placed)
      ∈ nodesAt shiftBuilt.tree 0 shiftBuilt.xmin shiftBuilt.xmax := nodesAt_root _ _ _ _
  have h1 : (1 : Nat) ∈ [0, 1] := by decide
  have h2 : at2 (shiftBuilt.polysAll.getD 1 Polygon.none).xmin 0 < 3 := by decide!
  have h3 : 3 < at2 (shiftBuilt.polysAll.getD 1 Polygon.none).xmax 0 := by decide!
  exact ⟨⟨hb, he⟩, ⟨h1, h2, h3⟩,
    (C18_children_are_filters 100 3 _ shiftBuilt hb _ he _ _ _ _ _ rfl).2.2 1 h1 h2 h3⟩

end Venice

namespace Venice

/-- C17 (counterexample): in the tree built from the square `(0,0)..(4,4)` and
the polygon `(2,1),(2,2),(2,3)`, whose box has no width and lies at the split
value `x = 2` of the root, polygon `1` is a member of the root but of neither
child. -/
theorem C17_member_lost_at_split :
    readPolygonFileTree 100 3 [squareLine, midLine] = .ok (some midBuilt) ∧
    midBuilt.tree = .NODE [0, 1] 0 2 (.NODE [0] 1 2 (.LEAF [0]) (.LEAF [0]))
      (.NODE [0] 1 2 (.LEAF [0]) (.LEAF [0])) ∧
    1 ∈ midBuilt.tree.poly_id ∧
    1 ∉ (Node.NODE [0] 1 2 (.LEAF [0]) (.LEAF [0])).poly_id :=
  ⟨readPolygonFileTree_eval [squareP, midP] (by rfl) (by decide) (by decide!), rfl,
    by decide, by decide⟩

/-- C17 (amended): for every internal node of the tree built from a store that
was read, every member of a child is a member of the node, and a member of the
node is a member of at least one child unless its bounding box has no extent
along the split dimension and lies exactly at the split value
(`xmin[d] = xmax[d] = SplitValue`), in which case it is in neither child. -/
theorem C17_children_cover_members (NVERTICES fuel : Nat) (lines : List Line)
    (b : Built) (hb : readPolygonFileTree NVERTICES fuel lines = .ok (some b))
    (e : Placed) (he : e ∈ nodesAt b.tree 0 b.xmin b.xmax)
    (ids : List Nat) (d : Nat) (v : ℚ) (l r : Node) (hn : e.node = .NODE ids d v l r) :
    (∀ i, i ∈ l.poly_id ∨ i ∈ r.poly_id → i ∈ ids) ∧
    (∀ i ∈ ids, (i ∈ l.poly_id ∨ i ∈ r.poly_id) ↔
      ¬ (at2 (b.polysAll.getD i Polygon.none).xmin d = v ∧
        at2 (b.polysAll.getD i Polygon.none).xmax d = v)) := by
  obtain ⟨h1, h2⟩ := built_children_filters NVERTICES fuel lines b hb e he ids d v l r hn
  obtain ⟨polys', hs, hlook, hids, _, _, _, _, _⟩ :=
    built_internal NVERTICES fuel lines b hb e he ids d v l r hn
  obtain ⟨ps, hr, hbt⟩ := readPolygonFileTree_inv hb
  obtain ⟨_, hp, _, _⟩ := buildTree_inv hbt
  rw [h1, h2]
  constructor
  · rintro i (hi | hi)
    · exact (List.mem_filter.mp hi).1
    · exact (List.mem_filter.mp hi).1
  · intro i hi
    have hvalid : at2 (b.polysAll.getD i Polygon.none).xmin d
        ≤ at2 (b.polysAll.getD i Polygon.none).xmax d := by
      rw [hids] at hi
      obtain ⟨p, hpm, rfl⟩ := List.mem_map.mp hi
      rw [hlook p hpm]
      have hmem : p ∈ ps := by rw [← hp]; exact hs.subset hpm
      obtain ⟨v1, v2⟩ := readPolygons_box_valid hr p hmem
      unfold at2
      by_cases hd : d = 0
      · simp only [hd, if_true]; exact v1
      · simp only [hd, if_false]; exact v2
    simp only [List.mem_filter, hi, true_and, decide_eq_true_eq, gt_iff_lt]
    constructor
    · rintro (h | h) ⟨e1, e2⟩
      · rw [e1] at h; exact lt_irrefl _ h
      · rw [e2] at h; exact lt_irrefl _ h
    · intro hne
      by_contra hcon
      rw [not_or, not_lt, not_lt] at hcon
      obtain ⟨c1, c2⟩ := hcon
      exact hne ⟨le_antisymm (le_trans hvalid c2) c1, le_antisymm c2 (le_trans c1 hvalid)⟩

/-- C17 (amended) at the root of the tree of the square and the polygon on the
line `x = 2`: polygon `0` is in a child, polygon `1`, with `xmin[0] = xmax[0] =
2`, is in neither. -/
theorem C17_children_cover_witness :
    (readPolygonFileTree 100 3 [squareLine, midLine] = .ok (some midBuilt) ∧
      (⟨midBuilt.tree, 0, (0, 0), (4, 4)⟩ : Placed)
        ∈ nodesAt midBuilt.tree 0 midBuilt.xmin midBuilt.xmax) ∧
    ((1 ∈ (Node.NODE [0] 1 2 (.LEAF [0]) (.LEAF [0])).poly_id ∨
        1 ∈ (Node.NODE [0] 1 2 (.LEAF [0]) (.LEAF [0])).poly_id) ↔
      ¬ (at2 (midBuilt.polysAll.getD 1 Polygon.none).xmin 0 = 2 ∧
        at2 (midBuilt.polysAll.getD 1 Polygon.none).xmax 0 = 2)) := by
  have hb : readPolygonFileTree 100 3 [squareLine, midLine] = .ok (some midBuilt) :=
    readPolygonFileTree_eval [squareP, midP] (by rfl) (by decide) (by decide!)
  have he : (⟨midBuilt.tree, 0, (0, 0), (4, 4)⟩ : Placed)
      ∈ nodesAt midBuilt.tree 0 midBuilt.xmin midBuilt.xmax := nodesAt_root _ _ _ _
  exact ⟨⟨hb, he⟩,
    (C17_children_cover_members 100 3 _ midBuilt hb _ he _ _ _ _ _ rfl).2 1 (by decide)⟩

/-! ## The threshold `minArea` and the leaf rule -/

end Venice
